import Mathlib

/-!
Verification development for the Instagram JSON preprocessing pipeline
(`preprocess.py` and `preprocess11.py`).

The Python source is shallowly embedded: JSON documents become an inductive
`Json` type, pandas DataFrames become a `Table` of `Cell` rows, and each
pipeline step (`flatten_json`, `clean_and_standardize`, `create_unique_id`,
`extract_one_to_many_tables`, `process_all_jsons`) is translated into an
executable Lean definition.  Machine-level library calls (MD5, Python `str`)
are implemented directly.  All definitions are computable so that concrete
scenarios evaluate by `decide`.
-/

set_option maxRecDepth 4000000

namespace IGPre

/-- A parsed JSON value, as produced by Python's `json.load`.  Numbers are
modelled as integers (the claims under verification only involve integral
numbers); objects are association lists with distinct keys, mirroring
Python dicts. -/
inductive Json where
  | null : Json
  | bool : Bool → Json
  | num : Int → Json
  | str : String → Json
  | arr : List Json → Json
  | obj : List (String × Json) → Json

mutual

/-- Decidable equality on `Json` (written out by hand: the automatic
derivation does not support nested inductives). -/
def jsonDecEq : (a b : Json) → Decidable (a = b)
  | .null, .null => isTrue rfl
  | .bool a, .bool b =>
      if h : a = b then isTrue (by rw [h]) else
        isFalse (by intro hh; injection hh with h2; exact h h2)
  | .num a, .num b =>
      if h : a = b then isTrue (by rw [h]) else
        isFalse (by intro hh; injection hh with h2; exact h h2)
  | .str a, .str b =>
      if h : a = b then isTrue (by rw [h]) else
        isFalse (by intro hh; injection hh with h2; exact h h2)
  | .arr xs, .arr ys =>
      match jsonDecEqList xs ys with
      | isTrue h => isTrue (by rw [h])
      | isFalse h => isFalse (by intro hh; injection hh with h2; exact h h2)
  | .obj xs, .obj ys =>
      match jsonDecEqEntries xs ys with
      | isTrue h => isTrue (by rw [h])
      | isFalse h => isFalse (by intro hh; injection hh with h2; exact h h2)
  | .null, .bool _ => isFalse (fun h => Json.noConfusion h)
  | .null, .num _ => isFalse (fun h => Json.noConfusion h)
  | .null, .str _ => isFalse (fun h => Json.noConfusion h)
  | .null, .arr _ => isFalse (fun h => Json.noConfusion h)
  | .null, .obj _ => isFalse (fun h => Json.noConfusion h)
  | .bool _, .null => isFalse (fun h => Json.noConfusion h)
  | .bool _, .num _ => isFalse (fun h => Json.noConfusion h)
  | .bool _, .str _ => isFalse (fun h => Json.noConfusion h)
  | .bool _, .arr _ => isFalse (fun h => Json.noConfusion h)
  | .bool _, .obj _ => isFalse (fun h => Json.noConfusion h)
  | .num _, .null => isFalse (fun h => Json.noConfusion h)
  | .num _, .bool _ => isFalse (fun h => Json.noConfusion h)
  | .num _, .str _ => isFalse (fun h => Json.noConfusion h)
  | .num _, .arr _ => isFalse (fun h => Json.noConfusion h)
  | .num _, .obj _ => isFalse (fun h => Json.noConfusion h)
  | .str _, .null => isFalse (fun h => Json.noConfusion h)
  | .str _, .bool _ => isFalse (fun h => Json.noConfusion h)
  | .str _, .num _ => isFalse (fun h => Json.noConfusion h)
  | .str _, .arr _ => isFalse (fun h => Json.noConfusion h)
  | .str _, .obj _ => isFalse (fun h => Json.noConfusion h)
  | .arr _, .null => isFalse (fun h => Json.noConfusion h)
  | .arr _, .bool _ => isFalse (fun h => Json.noConfusion h)
  | .arr _, .num _ => isFalse (fun h => Json.noConfusion h)
  | .arr _, .str _ => isFalse (fun h => Json.noConfusion h)
  | .arr _, .obj _ => isFalse (fun h => Json.noConfusion h)
  | .obj _, .null => isFalse (fun h => Json.noConfusion h)
  | .obj _, .bool _ => isFalse (fun h => Json.noConfusion h)
  | .obj _, .num _ => isFalse (fun h => Json.noConfusion h)
  | .obj _, .str _ => isFalse (fun h => Json.noConfusion h)
  | .obj _, .arr _ => isFalse (fun h => Json.noConfusion h)

def jsonDecEqList : (a b : List Json) → Decidable (a = b)
  | [], [] => isTrue rfl
  | [], _ :: _ => isFalse (fun h => List.noConfusion h)
  | _ :: _, [] => isFalse (fun h => List.noConfusion h)
  | x :: xs, y :: ys =>
      match jsonDecEq x y with
      | isFalse h => isFalse (by intro hh; injection hh with h1 h2; exact h h1)
      | isTrue h1 =>
          match jsonDecEqList xs ys with
          | isTrue h2 => isTrue (by rw [h1, h2])
          | isFalse h => isFalse (by intro hh; injection hh with ha hb; exact h hb)

def jsonDecEqEntries : (a b : List (String × Json)) → Decidable (a = b)
  | [], [] => isTrue rfl
  | [], _ :: _ => isFalse (fun h => List.noConfusion h)
  | _ :: _, [] => isFalse (fun h => List.noConfusion h)
  | (k1, v1) :: xs, (k2, v2) :: ys =>
      if hk : k1 = k2 then
        match jsonDecEq v1 v2 with
        | isFalse h =>
            isFalse (by
              intro hh
              injection hh with h1 h2
              exact h (congrArg Prod.snd h1))
        | isTrue hv =>
            match jsonDecEqEntries xs ys with
            | isTrue h2 => isTrue (by rw [hk, hv, h2])
            | isFalse h =>
                isFalse (by intro hh; injection hh with ha hb; exact h hb)
      else
        isFalse (by
          intro hh
          injection hh with h1 h2
          exact hk (congrArg Prod.fst h1))

end

instance : DecidableEq Json := jsonDecEq

/-- One DataFrame cell.  `nan` is a missing value introduced by pandas for
absent record keys; `noneV` is a surviving Python `None` (JSON `null`); the
two print differently (`"nan"` vs `"None"`) under `str`.  `dt` is a
pandas `Timestamp` (epoch nanoseconds); it is never exercised by the
claims, which involve no date-keyword columns. -/
inductive Cell where
  | str : String → Cell
  | int : Int → Cell
  | bool : Bool → Cell
  | dt : Int → Cell
  | nan : Cell
  | noneV : Cell
deriving DecidableEq

/-- Missing-value test, as used by `dropna`/`fillna`/`pd.notna`. -/
def isNA : Cell → Bool
  | .nan => true
  | .noneV => true
  | _ => false

def Cell.isStr : Cell → Bool
  | .str _ => true
  | _ => false

def Cell.isInt : Cell → Bool
  | .int _ => true
  | _ => false

def Cell.isDt : Cell → Bool
  | .dt _ => true
  | _ => false

/-! ### String utilities (Python `str` operations, ASCII semantics) -/

/-- Python whitespace characters handled by `str.strip()` (ASCII range). -/
def isPyWs (c : Char) : Bool :=
  c = ' ' || c = '\t' || c = '\n' || c = '\x0d' || c = '\x0b' || c = '\x0c'

/-- Python `str.strip()`: drop leading and trailing whitespace. -/
def pyStrip (s : String) : String :=
  String.mk (((s.data.dropWhile isPyWs).reverse.dropWhile isPyWs).reverse)

/-- Auxiliary for Python `str.split(',')`. -/
def splitCommaAux : List Char → List Char → List (List Char)
  | [], acc => [acc.reverse]
  | c :: cs, acc =>
      if c = ',' then acc.reverse :: splitCommaAux cs [] else splitCommaAux cs (c :: acc)

/-- Python `s.split(',')` (note `"".split(',') = [""]`). -/
def pySplitComma (s : String) : List String :=
  (splitCommaAux s.data []).map String.mk

/-- Is `pat` a prefix of `l`? -/
def isPreOf : List Char → List Char → Bool
  | [], _ => true
  | _ :: _, [] => false
  | a :: as, b :: bs => a = b && isPreOf as bs

/-- Auxiliary substring test on character lists. -/
def hasSubAux : List Char → List Char → Bool
  | [], sub => sub.isEmpty
  | c :: rest, sub => isPreOf sub (c :: rest) || hasSubAux rest sub

/-- Python `sub in s` substring containment. -/
def strHasSub (s sub : String) : Bool := hasSubAux s.data sub.data

/-- ASCII lower-casing of one character (Python `str.lower`, ASCII range). -/
def lowerChar (c : Char) : Char :=
  if 'A' ≤ c && c ≤ 'Z' then Char.ofNat (c.toNat + 32) else c

/-- Python `str.lower()` (ASCII semantics; the pipeline's column names are
ASCII). -/
def lowerStr (s : String) : String := String.mk (s.data.map lowerChar)

/-- Python `s.replace(a, b)` for single-character patterns, the only form
used by the source (`' '`, `'.'`, `'-'` → `'_'`). -/
def replChar (s : String) (a b : Char) : String :=
  String.mk (s.data.map (fun c => if c = a then b else c))

/-- Does the string contain a comma (pandas `.str.contains(',')` on one
value)? -/
def strHasComma (s : String) : Bool := s.data.contains ','

/-- Python `s.endswith(suf)`. -/
def strEndsWith (s suf : String) : Bool := isPreOf suf.data.reverse s.data.reverse

/-- Python `s[:-n]` for `n ≤ len(s)` (drop the last `n` characters). -/
def strDropRight (s : String) (n : Nat) : String :=
  String.mk (s.data.take (s.data.length - n))

/-- Join strings with a separator (Python `sep.join(...)`). -/
def joinSep (sep : String) : List String → String
  | [] => ""
  | [x] => x
  | x :: y :: xs => x ++ sep ++ joinSep sep (y :: xs)

/-! ### Python `str()` / `repr()` rendering of JSON values -/

/-- Join a list of strings with `", "`. -/
def joinCommaSpace (l : List String) : String := joinSep ", " l

mutual

/-- Python `str(v)` for a parsed JSON value: `None`, `True`/`False`,
decimal integers, bare strings, and `str` of lists/dicts (whose elements
render via `repr`). -/
def pyStr : Json → String
  | .null => "None"
  | .bool true => "True"
  | .bool false => "False"
  | .num n => toString n
  | .str s => s
  | .arr xs => "[" ++ joinCommaSpace (pyReprList xs) ++ "]"
  | .obj kvs => "\x7b" ++ joinCommaSpace (pyReprEntries kvs) ++ "\x7d"

/-- Python `repr(v)`: like `str` except strings gain quotes.  Escaping
inside strings is not modelled (claim inputs contain no quotes). -/
def pyRepr : Json → String
  | .str s => "'" ++ s ++ "'"
  | .null => "None"
  | .bool true => "True"
  | .bool false => "False"
  | .num n => toString n
  | .arr xs => "[" ++ joinCommaSpace (pyReprList xs) ++ "]"
  | .obj kvs => "\x7b" ++ joinCommaSpace (pyReprEntries kvs) ++ "\x7d"

def pyReprList : List Json → List String
  | [] => []
  | x :: xs => pyRepr x :: pyReprList xs

def pyReprEntries : List (String × Json) → List String
  | [] => []
  | (k, v) :: kvs => ("'" ++ k ++ "': " ++ pyRepr v) :: pyReprEntries kvs

end

/-- Python `str(v)` for a DataFrame cell (`numpy` NaN prints `nan`,
Python `None` prints `None`).  `Timestamp` rendering is simplified (never
exercised: the claims involve no date columns). -/
def pyStrCell : Cell → String
  | .str s => s
  | .int n => toString n
  | .bool true => "True"
  | .bool false => "False"
  | .dt n => "Timestamp " ++ toString n
  | .nan => "nan"
  | .noneV => "None"

/-! ### MD5 (RFC 1321), over `Nat` with explicit `% 2^32` -/

/-- 32-bit truncation. -/
def m32 (x : Nat) : Nat := x % 4294967296

/-- 32-bit left rotation. -/
def rotl32 (x n : Nat) : Nat := m32 ((x <<< n) + (x >>> (32 - n)))

/-- 32-bit bitwise complement. -/
def not32 (x : Nat) : Nat := 4294967295 - x

/-- The 64 MD5 sine-derived constants. -/
def md5K : List Nat :=
  [0xd76aa478, 0xe8c7b756, 0x242070db, 0xc1bdceee,
   0xf57c0faf, 0x4787c62a, 0xa8304613, 0xfd469501,
   0x698098d8, 0x8b44f7af, 0xffff5bb1, 0x895cd7be,
   0x6b901122, 0xfd987193, 0xa679438e, 0x49b40821,
   0xf61e2562, 0xc040b340, 0x265e5a51, 0xe9b6c7aa,
   0xd62f105d, 0x02441453, 0xd8a1e681, 0xe7d3fbc8,
   0x21e1cde6, 0xc33707d6, 0xf4d50d87, 0x455a14ed,
   0xa9e3e905, 0xfcefa3f8, 0x676f02d9, 0x8d2a4c8a,
   0xfffa3942, 0x8771f681, 0x6d9d6122, 0xfde5380c,
   0xa4beea44, 0x4bdecfa9, 0xf6bb4b60, 0xbebfbc70,
   0x289b7ec6, 0xeaa127fa, 0xd4ef3085, 0x04881d05,
   0xd9d4d039, 0xe6db99e5, 0x1fa27cf8, 0xc4ac5665,
   0xf4292244, 0x432aff97, 0xab9423a7, 0xfc93a039,
   0x655b59c3, 0x8f0ccc92, 0xffeff47d, 0x85845dd1,
   0x6fa87e4f, 0xfe2ce6e0, 0xa3014314, 0x4e0811a1,
   0xf7537e82, 0xbd3af235, 0x2ad7d2bb, 0xeb86d391]

/-- The 64 MD5 per-round left-rotation amounts. -/
def md5S : List Nat :=
  [7, 12, 17, 22, 7, 12, 17, 22, 7, 12, 17, 22, 7, 12, 17, 22,
   5, 9, 14, 20, 5, 9, 14, 20, 5, 9, 14, 20, 5, 9, 14, 20,
   4, 11, 16, 23, 4, 11, 16, 23, 4, 11, 16, 23, 4, 11, 16, 23,
   6, 10, 15, 21, 6, 10, 15, 21, 6, 10, 15, 21, 6, 10, 15, 21]

/-- One MD5 round: mixes state `(a, b, c, d)` with message words `msg`. -/
def md5Round (msg : List Nat) (st : Nat × Nat × Nat × Nat) (i : Nat) :
    Nat × Nat × Nat × Nat :=
  let (a, b, c, d) := st
  let f :=
    if i < 16 then (b &&& c) ||| (not32 b &&& d)
    else if i < 32 then (d &&& b) ||| (not32 d &&& c)
    else if i < 48 then b ^^^ c ^^^ d
    else c ^^^ (b ||| not32 d)
  let g :=
    if i < 16 then i
    else if i < 32 then (5 * i + 1) % 16
    else if i < 48 then (3 * i + 5) % 16
    else (7 * i) % 16
  let f2 := m32 (f + a + md5K.getD i 0 + msg.getD g 0)
  (d, m32 (b + rotl32 f2 (md5S.getD i 0)), b, c)

/-- Decode a 64-byte chunk into sixteen little-endian 32-bit words. -/
def md5Words : List Nat → List Nat
  | b0 :: b1 :: b2 :: b3 :: rest =>
      (b0 + 256 * b1 + 65536 * b2 + 16777216 * b3) :: md5Words rest
  | _ => []

/-- Process one 64-byte chunk, updating the running digest state. -/
def md5Chunk (st : Nat × Nat × Nat × Nat) (chunk : List Nat) :
    Nat × Nat × Nat × Nat :=
  let msg := md5Words chunk
  let (a0, b0, c0, d0) := st
  let (a, b, c, d) := (List.range 64).foldl (md5Round msg) (a0, b0, c0, d0)
  (m32 (a0 + a), m32 (b0 + b), m32 (c0 + c), m32 (d0 + d))

/-- Split a byte list into 64-byte chunks (structural recursion on a fuel
bound so that the definition evaluates inside the kernel). -/
def chunks64Aux : Nat → List Nat → List (List Nat)
  | 0, _ => []
  | _, [] => []
  | fuel + 1, a :: l => (a :: l).take 64 :: chunks64Aux fuel ((a :: l).drop 64)

/-- Split a byte list into 64-byte chunks. -/
def chunks64 (l : List Nat) : List (List Nat) := chunks64Aux l.length l

/-- MD5 padding: append `0x80`, zero-pad to 56 mod 64, then the bit length
as a little-endian 64-bit value. -/
def md5Pad (bytes : List Nat) : List Nat :=
  let bitLen := (8 * bytes.length) % 18446744073709551616
  let padded := bytes ++ [128]
  let zeros := (64 + 56 - (padded.length % 64)) % 64
  padded ++ List.replicate zeros 0 ++
    (List.range 8).map (fun i => (bitLen >>> (8 * i)) % 256)

/-- Hex rendering of one nibble. -/
def hexNibble (n : Nat) : Char :=
  if n < 10 then Char.ofNat (48 + n) else Char.ofNat (87 + n)

/-- Hex rendering of one byte (two lowercase hex digits). -/
def hexByte (b : Nat) : List Char := [hexNibble (b / 16), hexNibble (b % 16)]

/-- Little-endian byte decomposition of a 32-bit word. -/
def wordBytesLE (w : Nat) : List Nat :=
  [w % 256, (w / 256) % 256, (w / 65536) % 256, (w / 16777216) % 256]

/-- UTF-8 encoding of one character (standard 1–4 byte forms). -/
def charUtf8 (c : Char) : List Nat :=
  let n := c.toNat
  if n < 128 then [n]
  else if n < 2048 then [192 + n / 64, 128 + n % 64]
  else if n < 65536 then [224 + n / 4096, 128 + (n / 64) % 64, 128 + n % 64]
  else [240 + n / 262144, 128 + (n / 4096) % 64, 128 + (n / 64) % 64, 128 + n % 64]

/-- UTF-8 byte sequence of a string (Python `s.encode('utf-8')`). -/
def utf8Bytes (s : String) : List Nat := s.data.flatMap charUtf8

/-- MD5 hex digest of a string, as Python
`hashlib.md5(s.encode('utf-8')).hexdigest()`. -/
def md5hex (s : String) : String :=
  let (a, b, c, d) :=
    (chunks64 (md5Pad (utf8Bytes s))).foldl md5Chunk
      (0x67452301, 0xefcdab89, 0x98badcfe, 0x10325476)
  String.mk (([a, b, c, d].flatMap wordBytesLE).flatMap hexByte)

/-! ### flatten_json -/

/-- Python dict assignment `out[k] = v`: replace the value at the first
(unique, for genuine dicts) occurrence of `k`, keeping its position, or
append a new binding at the end. -/
def upsert : List (String × Json) → String → Json → List (String × Json)
  | [], k, v => [(k, v)]
  | (k', v') :: rest, k, v =>
      if k' = k then (k', v) :: rest else (k', v') :: upsert rest k v

/-- Is the value a JSON object (Python `isinstance(x, dict)`)? -/
def isObjJson : Json → Bool
  | .obj _ => true
  | _ => false

/-- `all(isinstance(i, dict) for i in x)`. -/
def jsonAllObj (xs : List Json) : Bool := xs.all isObjJson

mutual

/-- The inner `flatten(x, name)` worker of `flatten_json`, threading the
`out` dict as explicit state.  Dicts recurse per key, arrays of dicts
recurse per index, any other array collapses to a `", "`-joined string,
and scalars are stored under `name[:-1]`. -/
def flattenAux (sep : String) : Json → String → List (String × Json) → List (String × Json)
  | .obj kvs, name, out => flattenObj sep kvs name out
  | .arr xs, name, out =>
      if jsonAllObj xs then flattenArr sep xs 0 name out
      else upsert out (strDropRight name 1) (.str (joinCommaSpace (xs.map pyStr)))
  | .null, name, out => upsert out (strDropRight name 1) .null
  | .bool b, name, out => upsert out (strDropRight name 1) (.bool b)
  | .num n, name, out => upsert out (strDropRight name 1) (.num n)
  | .str s, name, out => upsert out (strDropRight name 1) (.str s)

/-- `for a in x: flatten(x[a], f"{name}{a}{sep}")` over a dict's entries. -/
def flattenObj (sep : String) : List (String × Json) → String → List (String × Json) → List (String × Json)
  | [], _, out => out
  | (k, v) :: rest, name, out => flattenObj sep rest name (flattenAux sep v (name ++ k ++ sep) out)

/-- `for idx, a in enumerate(x): flatten(a, f"{name}{idx}{sep}")`. -/
def flattenArr (sep : String) : List Json → Nat → String → List (String × Json) → List (String × Json)
  | [], _, _, out => out
  | x :: rest, idx, name, out =>
      flattenArr sep rest (idx + 1) name (flattenAux sep x (name ++ toString idx ++ sep) out)

end

/-- `flatten_json(y, parent_key='', sep='_')`. -/
def flatten_json (y : Json) (parentKey : String := "") (sep : String := "_") :
    List (String × Json) :=
  flattenAux sep y parentKey []

mutual

/-- The sequence of `out[...] = ...` assignments performed by
`flattenAux`, in execution order (specification helper). -/
def emitsAux (sep : String) : Json → String → List (String × Json)
  | .obj kvs, name => emitsObj sep kvs name
  | .arr xs, name =>
      if jsonAllObj xs then emitsArr sep xs 0 name
      else [(strDropRight name 1, .str (joinCommaSpace (xs.map pyStr)))]
  | .null, name => [(strDropRight name 1, .null)]
  | .bool b, name => [(strDropRight name 1, .bool b)]
  | .num n, name => [(strDropRight name 1, .num n)]
  | .str s, name => [(strDropRight name 1, .str s)]

def emitsObj (sep : String) : List (String × Json) → String → List (String × Json)
  | [], _ => []
  | (k, v) :: rest, name => emitsAux sep v (name ++ k ++ sep) ++ emitsObj sep rest name

def emitsArr (sep : String) : List Json → Nat → String → List (String × Json)
  | [], _, _ => []
  | x :: rest, idx, name =>
      emitsAux sep x (name ++ toString idx ++ sep) ++ emitsArr sep rest (idx + 1) name

end

/-- Apply a sequence of dict assignments in order. -/
def applyEmits (out : List (String × Json)) (es : List (String × Json)) :
    List (String × Json) :=
  es.foldl (fun o kv => upsert o kv.1 kv.2) out

mutual

/-- `flattenAux` is the fold of its assignment sequence over the state. -/
theorem flattenAux_eq_applyEmits (sep : String) :
    ∀ (j : Json) (name : String) (out : List (String × Json)),
      flattenAux sep j name out = applyEmits out (emitsAux sep j name)
  | .obj kvs, name, out => by
      rw [flattenAux, emitsAux, flattenObj_eq_applyEmits]
  | .arr xs, name, out => by
      rw [flattenAux, emitsAux]
      by_cases h : jsonAllObj xs = true
      · rw [if_pos h, if_pos h, flattenArr_eq_applyEmits]
      · rw [if_neg h, if_neg h]; rfl
  | .null, name, out => by rw [flattenAux, emitsAux]; rfl
  | .bool b, name, out => by rw [flattenAux, emitsAux]; rfl
  | .num n, name, out => by rw [flattenAux, emitsAux]; rfl
  | .str s, name, out => by rw [flattenAux, emitsAux]; rfl

theorem flattenObj_eq_applyEmits (sep : String) :
    ∀ (kvs : List (String × Json)) (name : String) (out : List (String × Json)),
      flattenObj sep kvs name out = applyEmits out (emitsObj sep kvs name)
  | [], _, out => by rw [flattenObj, emitsObj]; rfl
  | (k, v) :: rest, name, out => by
      rw [flattenObj, emitsObj, flattenObj_eq_applyEmits sep rest,
        flattenAux_eq_applyEmits sep v]
      simp [applyEmits, List.foldl_append]

theorem flattenArr_eq_applyEmits (sep : String) :
    ∀ (xs : List Json) (idx : Nat) (name : String) (out : List (String × Json)),
      flattenArr sep xs idx name out = applyEmits out (emitsArr sep xs idx name)
  | [], _, _, out => by rw [flattenArr, emitsArr]; rfl
  | x :: rest, idx, name, out => by
      rw [flattenArr, emitsArr, flattenArr_eq_applyEmits sep rest,
        flattenAux_eq_applyEmits sep x]
      simp [applyEmits, List.foldl_append]

end

theorem flatten_json_eq_applyEmits (y : Json) (parentKey sep : String) :
    flatten_json y parentKey sep = applyEmits [] (emitsAux sep y parentKey) :=
  flattenAux_eq_applyEmits sep y parentKey []

/-! ### json_file_to_flat_records -/

/-- Python dict lookup `data[k]` / `k in data`. -/
def alookup (kvs : List (String × Json)) (k : String) : Option Json :=
  match kvs with
  | [] => none
  | (k', v) :: rest => if k' = k then some v else alookup rest k

/-- The fixed, ordered container-key priority list of `preprocess.py`. -/
def tryKeys : List String :=
  ["list", "messages", "media", "connections", "string_list_data",
   "profile_changes", "followers", "following", "ads", "ads_information", "items"]

/-- First key of the priority list present with a list value. -/
def findListKey (kvs : List (String × Json)) : List String → Option (List Json)
  | [] => none
  | k :: ks =>
      match alookup kvs k with
      | some (.arr xs) => some xs
      | _ => findListKey kvs ks

/-- Outer-structure detection of `json_file_to_flat_records`: an array is
the record list, a dict is searched for a known container key (else
wrapped), a scalar is wrapped. -/
def locateRecords (doc : Json) : List Json :=
  match doc with
  | .obj kvs => (findListKey kvs tryKeys).getD [.obj kvs]
  | .arr xs => xs
  | v => [v]

/-- `json_file_to_flat_records` (after `json.load`): locate the record
list and flatten each record. -/
def jsonFileToFlatRecords (doc : Json) : List (List (String × Json)) :=
  (locateRecords doc).map (fun r => flatten_json r)

/-! ### Tables (pandas DataFrames) -/

/-- A DataFrame: ordered column labels and row-major cells.  Tables built
by the pipeline are rectangular (every row has `cols.length` cells). -/
structure Table where
  cols : List String
  rows : List (List Cell)
deriving DecidableEq

/-- Cell at column index `j` (missing positions read as NaN). -/
def getCell (r : List Cell) (j : Nat) : Cell := r.getD j .nan

/-- The cells of column `j`, top to bottom. -/
def colCells (rows : List (List Cell)) (j : Nat) : List Cell :=
  rows.map (fun r => getCell r j)

/-- Does the cell force `object` dtype on its column (strings and Python
`None` do; ints, floats-with-NaN and booleans do not)? -/
def cellObjLike : Cell → Bool
  | .str _ => true
  | .noneV => true
  | _ => false

/-- Column dtype test `df[col].dtype == object` (derived from the cells). -/
def colIsObject (cells : List Cell) : Bool := cells.any cellObjLike

/-- Index of the first column with the given label (pandas label lookup;
pipeline tables have unique labels). -/
def idxOf? (c : String) : List String → Option Nat
  | [] => none
  | x :: xs => if x = c then some 0 else (idxOf? c xs).map (· + 1)

/-- Scan for `drop_duplicates`, carrying the rows already seen. -/
def pdDropDupAux (seen : List (List Cell)) : List (List Cell) → List (List Cell)
  | [] => []
  | r :: rest =>
      if seen.contains r then pdDropDupAux seen rest
      else r :: pdDropDupAux (seen ++ [r]) rest

/-- `df.drop_duplicates()`: keep the first occurrence of each row. -/
def pdDropDuplicates (rows : List (List Cell)) : List (List Cell) :=
  pdDropDupAux [] rows

/-- Column indices that survive `df.dropna(axis=1, how='all')`. -/
def keepIdx (cols : List String) (rows : List (List Cell)) : List Nat :=
  (List.range cols.length).filter (fun j => rows.any (fun r => !(isNA (getCell r j))))

/-- `df.dropna(axis=1, how='all')`: drop columns that are NA in every row. -/
def dropAllNaCols (cols : List String) (rows : List (List Cell)) :
    List String × List (List Cell) :=
  let keep := keepIdx cols rows
  (keep.map (fun j => cols.getD j ""),
   rows.map (fun r => keep.map (fun j => getCell r j)))

/-- `df.fillna('')` on one cell. -/
def fillnaCell (c : Cell) : Cell := if isNA c then .str "" else c

/-- Column-name cleanup of `preprocess.py`:
`c.strip().replace(' ', '_').replace('.', '_').replace('-', '_').lower()`. -/
def pdColName (c : String) : String :=
  lowerStr (replChar (replChar (replChar (pyStrip c) ' ' '_') '.' '_') '-' '_')

/-- Column-name cleanup of `preprocess11.py` (same but without `.lower()`). -/
def pdColName11 (c : String) : String :=
  replChar (replChar (replChar (pyStrip c) ' ' '_') '.' '_') '-' '_'

def dateKeywords : List String := ["date", "time", "timestamp"]

def metricKeywords : List String :=
  ["count", "likes", "comments", "engagement", "views", "followers", "following"]

/-- `any(k in c for k in ks)` (substring containment). -/
def containsAny (c : String) (ks : List String) : Bool := ks.any (strHasSub c)

/-- Apply `f` at the columns whose flag is set (used for per-dtype column
transforms); rows keep their length and order. -/
def rowApplyFlags (f : Cell → Cell) : List Bool → List Cell → List Cell
  | _, [] => []
  | [], r => r
  | fl :: flags, c :: r => (if fl then f c else c) :: rowApplyFlags f flags r

/-- Object-dtype flags of all columns (`df.select_dtypes(include=['object'])`). -/
def objFlags (cols : List String) (rows : List (List Cell)) : List Bool :=
  (List.range cols.length).map (fun j => colIsObject (colCells rows j))

/-- Overwrite column `j` cell-wise: `df[col] = df[col].apply(f)`-style. -/
def setColMap (rws : List (List Cell)) (j : Nat) (f : Cell → Cell) :
    List (List Cell) :=
  rws.map (fun r => r.set j (f (getCell r j)))

/-- Overwrite column `j` with a whole-column transform. -/
def setColWhole (rws : List (List Cell)) (j : Nat)
    (f : List Cell → List Cell) : List (List Cell) :=
  List.zipWith (fun r c => r.set j c) rws (f (colCells rws j))

/-! Emoji stripping (`remove_emojis_and_specials`); disabled by the
`REMOVE_EMOJIS` configuration constant, as in the source. -/

/-- Range test for the emoji regex character class. -/
def inR (n lo hi : Nat) : Bool := lo ≤ n && n ≤ hi

/-- Characters matched by the emoji pattern of the source. -/
def isEmojiChar (c : Char) : Bool :=
  let n := c.toNat
  inR n 0x1F600 0x1F64F || inR n 0x1F300 0x1F5FF || inR n 0x1F680 0x1F6FF ||
  inR n 0x1F1E0 0x1F1FF || inR n 0x2500 0x2BEF || inR n 0x2702 0x27B0 ||
  inR n 0x24C2 0x1F251 || inR n 0x1F926 0x1F937 || inR n 0x10000 0x10FFFF ||
  inR n 0x2640 0x2642 || inR n 0x2600 0x2B55 || n = 0x200D || n = 0x23CF ||
  n = 0x23E9 || n = 0x231A || n = 0xFE0F || n = 0x3030

/-- Control / non-printable characters removed after the emoji pass. -/
def isCtrlChar (c : Char) : Bool := c.toNat ≤ 0x1F || c.toNat = 0x7F

/-- `remove_emojis_and_specials` on a cell (strings only). -/
def removeEmojisCell : Cell → Cell
  | .str s =>
      .str (pyStrip (String.mk ((s.data.filter (fun ch => !isEmojiChar ch)).filter
        (fun ch => !isCtrlChar ch))))
  | c => c

/-- Config constant `REMOVE_EMOJIS` of `preprocess.py`. -/
def REMOVE_EMOJIS : Bool := false

/-- Config constant `GENERATE_UNIQUE_IDS` of `preprocess.py`. -/
def GENERATE_UNIQUE_IDS : Bool := true

/-- Config constant `DATE_FEATURES_EXTRACTION` of `preprocess.py`. -/
def DATE_FEATURES_EXTRACTION : Bool := true

/-! Date handling.  `pd.to_datetime` and the `.dt` accessors are pandas
library calls, modelled here; no claim exercises them (the claims involve
no column whose name contains a date keyword). -/

/-- Models `pd.to_datetime(v, errors='coerce', utc=True)` on one cell:
integers are epoch nanoseconds; strings are modelled as unparseable and
coerce to NaT (modelled by NaN). -/
def pdToDatetimeCoerce : Cell → Cell
  | .int n => .dt n
  | .dt n => .dt n
  | _ => .nan

/-- Models `pd.to_datetime(col, errors='ignore')` of `preprocess11.py`:
all-or-nothing conversion, returning the column unchanged unless every
value converts. -/
def pdToDatetimeIgnoreCol (cells : List Cell) : List Cell :=
  if cells.all (fun c => c.isInt || isNA c) then
    cells.map (fun c => match c with | .int n => .dt n | _ => .nan)
  else cells

/-- Days since the epoch of a nanosecond timestamp. -/
def epDays (n : Int) : Int := n / 86400000000000

/-- Civil date from an epoch day count (standard days-to-civil algorithm). -/
def civilFromDays (z0 : Int) : Int × Int × Int :=
  let z := z0 + 719468
  let era := z / 146097
  let doe := z - era * 146097
  let yoe := (doe - doe / 1460 + doe / 36524 - doe / 146096) / 365
  let y := yoe + era * 400
  let doy := doe - (365 * yoe + yoe / 4 - yoe / 100)
  let mp := (5 * doy + 2) / 153
  let d := doy - (153 * mp + 2) / 5 + 1
  let m := mp + (if mp < 10 then 3 else -9)
  (y + (if m ≤ 2 then 1 else 0), m, d)

/-- `.dt.year` on one cell (NaT gives NaN). -/
def cellYear : Cell → Cell
  | .dt n => .int (civilFromDays (epDays n)).1
  | _ => .nan

/-- `.dt.month`. -/
def cellMonth : Cell → Cell
  | .dt n => .int (civilFromDays (epDays n)).2.1
  | _ => .nan

/-- `.dt.day`. -/
def cellDay : Cell → Cell
  | .dt n => .int (civilFromDays (epDays n)).2.2
  | _ => .nan

/-- `.dt.weekday` (Monday = 0; the epoch day was a Thursday). -/
def cellWeekday : Cell → Cell
  | .dt n => .int ((epDays n + 3) % 7)
  | _ => .nan

/-- `.dt.hour`. -/
def cellHour : Cell → Cell
  | .dt n => .int ((n % 86400000000000) / 3600000000000)
  | _ => .nan

/-- Dtype test `pd.api.types.is_datetime64_any_dtype`, derived from cells
(only `pd.to_datetime` produces `dt` cells in this model). -/
def isDatetimeCol (cells : List Cell) : Bool := cells.any Cell.isDt

/-- One step of the date-feature loop: append `_year ... _hour` companion
columns for a parsed timestamp column. -/
def addDateFeatures (st : List String × List (List Cell)) (cname : String) :
    List String × List (List Cell) :=
  let (cols, rows) := st
  match idxOf? cname cols with
  | none => st
  | some j =>
      if isDatetimeCol (colCells rows j) then
        (cols ++ [cname ++ "_year", cname ++ "_month", cname ++ "_day",
                  cname ++ "_weekday", cname ++ "_hour"],
         rows.map (fun r =>
           let c := getCell r j
           r ++ [cellYear c, cellMonth c, cellDay c, cellWeekday c, cellHour c]))
      else st

/-- Integer parse used to model `pd.to_numeric` on strings (the metric
columns of the claims carry integral strings; floats are not modelled). -/
def allDigits (l : List Char) : Bool :=
  !l.isEmpty && l.all (fun c => '0' ≤ c && c ≤ '9')

def natOfDigits (l : List Char) : Nat :=
  l.foldl (fun a c => a * 10 + (c.toNat - 48)) 0

def pyToIntQ (s : String) : Option Int :=
  match s.data with
  | '-' :: rest => if allDigits rest then some (-(natOfDigits rest : Int)) else none
  | l => if allDigits l then some ((natOfDigits l : Int)) else none

/-- Models `pd.to_numeric(v, errors='coerce')` on one cell. -/
def pdToNumericCell : Cell → Cell
  | .str s => match pyToIntQ s with | some n => .int n | none => .nan
  | .int n => .int n
  | .bool b => .int (if b then 1 else 0)
  | .dt n => .dt n
  | .nan => .nan
  | .noneV => .nan

/-- The `media_type` code remapping (`map(...).fillna(original)`). -/
def mediaMapCell : Cell → Cell
  | .int 1 => .str "photo"
  | .int 2 => .str "video"
  | .int 8 => .str "carousel"
  | c => c

/-- The final trim step `df[col].astype(str).str.strip()` on one cell of
an object column (non-strings get stringified). -/
def stripCell (c : Cell) : Cell := .str (pyStrip (pyStrCell c))

/-- The `media_type` remapping step (applies only when the column exists). -/
def mediaStep (cols : List String) (rows : List (List Cell)) :
    List (List Cell) :=
  match idxOf? "media_type" cols with
  | some j => setColMap rows j mediaMapCell
  | none => rows

/-- Steps 1–3 of the cleanup, shared verbatim by both implementations:
`drop_duplicates()`, `dropna(axis=1, how='all')`, `fillna('')`. -/
def cleanStep0 (t : Table) : Table :=
  ⟨(dropAllNaCols t.cols (pdDropDuplicates t.rows)).1,
   (dropAllNaCols t.cols (pdDropDuplicates t.rows)).2.map (List.map fillnaCell)⟩

/-- Column-name normalization of `preprocess.py` (with `.lower()`). -/
def renameStep (t : Table) : Table := ⟨t.cols.map pdColName, t.rows⟩

/-- The optional emoji-stripping pass over the object columns. -/
def emojiStep (t : Table) : Table :=
  if REMOVE_EMOJIS then
    ⟨t.cols, t.rows.map (rowApplyFlags removeEmojisCell (objFlags t.cols t.rows))⟩
  else t

/-- Indices of columns whose name contains a date keyword. -/
def dateIdxL (cols : List String) : List Nat :=
  (List.range cols.length).filter (fun j => containsAny (cols.getD j "") dateKeywords)

/-- Names of columns containing a date keyword (the `date_cols` list). -/
def dateNamesL (cols : List String) : List String :=
  cols.filter (fun c => containsAny c dateKeywords)

/-- Indices of columns whose name contains a metric keyword. -/
def metricIdxL (cols : List String) : List Nat :=
  (List.range cols.length).filter (fun j => containsAny (cols.getD j "") metricKeywords)

/-- `pd.to_datetime(df[col], errors='coerce', utc=True)` over the date
columns. -/
def dateParseStep (t : Table) : Table :=
  ⟨t.cols,
   (dateIdxL t.cols).foldl (fun rws j => setColMap rws j pdToDatetimeCoerce) t.rows⟩

/-- The optional year/month/day/weekday/hour companion columns. -/
def dateFeatStep (t : Table) : Table :=
  if DATE_FEATURES_EXTRACTION then
    ⟨((dateNamesL t.cols).foldl addDateFeatures (t.cols, t.rows)).1,
     ((dateNamesL t.cols).foldl addDateFeatures (t.cols, t.rows)).2⟩
  else t

/-- `pd.to_numeric(...).fillna(0).astype(int)` over the metric columns,
wrapped in the per-column `try/except` (datetime columns raise and are
left unchanged). -/
def metricStep (t : Table) : Table :=
  ⟨t.cols,
   (metricIdxL t.cols).foldl
     (fun rws j =>
       if (colCells rws j).any Cell.isDt then rws
       else setColMap rws j (fun c =>
         let c2 := pdToNumericCell c
         if isNA c2 then .int 0 else c2))
     t.rows⟩

/-- The `media_type` remapping as a table step. -/
def mediaStepT (t : Table) : Table := ⟨t.cols, mediaStep t.cols t.rows⟩

/-- `df[col].astype(str).str.strip()` over the object columns. -/
def stripStep (t : Table) : Table :=
  ⟨t.cols, t.rows.map (rowApplyFlags stripCell (objFlags t.cols t.rows))⟩

/-- `clean_and_standardize` of `preprocess.py`, the steps in source
order: dedup + drop all-NA columns + fillna, rename, (emoji strip —
disabled), date parsing, date features, metric coercion, `media_type`
remap, string trim. -/
def clean_and_standardize (t : Table) : Table :=
  stripStep (mediaStepT (metricStep (dateFeatStep (dateParseStep
    (emojiStep (renameStep (cleanStep0 t)))))))

/-- Indices of columns whose lower-cased name contains a date keyword
(the `preprocess11.py` keyword test). -/
def dateIdx11L (cols : List String) : List Nat :=
  (List.range cols.length).filter
    (fun j => containsAny (lowerStr (cols.getD j "")) dateKeywords)

/-- `pd.to_datetime(df[col], errors='ignore')` over those columns. -/
def dateIgnoreStep (t : Table) : Table :=
  ⟨t.cols,
   (dateIdx11L t.cols).foldl (fun rws j => setColWhole rws j pdToDatetimeIgnoreCol) t.rows⟩

/-- Column-name normalization of `preprocess11.py` (no `.lower()`). -/
def rename11Step (t : Table) : Table := ⟨t.cols.map pdColName11, t.rows⟩

/-- `clean_and_standardize` of `preprocess11.py`: dedup + drop all-NA
columns + fillna, best-effort date parsing, rename without lower-casing. -/
def clean_and_standardize11 (t : Table) : Table :=
  rename11Step (dateIgnoreStep (cleanStep0 t))

/-! ### create_unique_id -/

/-- Series label lookup `row[k]` / `k in row`. -/
def alookupCell : List (String × Cell) → String → Option Cell
  | [], _ => none
  | (k', v) :: rest, k => if k' = k then some v else alookupCell rest k

/-- `create_unique_id(row, keys=[])`: MD5 of the `'||'`-joined stringified
row values (all values when `keys` is empty, else the present non-NA
values of the listed keys). -/
def create_unique_id (row : List (String × Cell)) (keys : List String := []) :
    String :=
  match keys with
  | [] => md5hex (joinSep "||" (row.map (fun kv => pyStrCell kv.2)))
  | _ =>
      md5hex (joinSep "||"
        ((keys.filter (fun k =>
            match alookupCell row k with
            | some c => !isNA c
            | none => false)).map
          (fun k => pyStrCell ((alookupCell row k).getD .nan))))

/-- `df['unique_id'] = [create_unique_id(row) for i, row in df.iterrows()]`. -/
def addUniqueIds (t : Table) : Table :=
  ⟨t.cols ++ ["unique_id"],
   t.rows.map (fun r => r ++ [.str (create_unique_id (t.cols.zip r))])⟩

/-! ### DataFrame construction from flat records -/

/-- Union of record keys in first-appearance order (`pd.DataFrame(records)`
column order). -/
def collectCols (records : List (List (String × Json))) : List String :=
  records.foldl
    (fun acc r => r.foldl (fun a kv => if a.contains kv.1 then a else a ++ [kv.1]) acc)
    []

/-- Scalar JSON value to DataFrame cell (`null` stays Python `None` in an
object column).  Containers cannot occur after flattening. -/
def jsonToCell : Json → Cell
  | .null => .noneV
  | .bool b => .bool b
  | .num n => .int n
  | .str s => .str s
  | .arr _ => .nan
  | .obj _ => .nan

/-- `pd.DataFrame(records)`: one row per record, keys missing from a
record become NaN. -/
def fromRecords (records : List (List (String × Json))) : Table :=
  let cols := collectCols records
  ⟨cols,
   records.map (fun r => cols.map (fun c =>
     match alookup r c with
     | some v => jsonToCell v
     | none => .nan))⟩

/-! ### extract_one_to_many_tables -/

/-- Strings obtained by `[x.strip() for x in val.split(',')]`. -/
def splitStripComma (s : String) : List String := (pySplitComma s).map pyStrip

/-- Pair the items with their `enumerate` index. -/
def enumFrom (n : Nat) : List String → List (Nat × String)
  | [] => []
  | x :: xs => (n, x) :: enumFrom (n + 1) xs

/-- The link rows contributed by one main row: `{key: main_id,
col_item: item, 'index': i}` for each non-empty stripped item. -/
def rowRecords (kv : Cell) (v : Cell) : List (List Cell) :=
  match v with
  | .str s =>
      (enumFrom 0 (splitStripComma s)).filterMap
        (fun p => if p.2 = "" then none else some [kv, .str p.2, .int p.1])
  | _ => []

/-- Does a string cell contain the delimiter? -/
def cellHasComma : Cell → Bool
  | .str s => strHasComma s
  | _ => false

/-- Column trigger of the extraction loop: object dtype and
`df[col].str.contains(',').any()` (non-string values give NA, skipped). -/
def xTrigger (rows : List (List Cell)) (j : Nat) : Bool :=
  colIsObject (colCells rows j) && (colCells rows j).any cellHasComma

/-- `df[[key_name, col]].dropna().iterrows()`: the (id, value) pairs of
rows where both entries are non-NA. -/
def xPairs (rows : List (List Cell)) (ki j : Nat) : List (Cell × Cell) :=
  rows.filterMap (fun r =>
    let kv := getCell r ki
    let v := getCell r j
    if !isNA kv && !isNA v then some (kv, v) else none)

/-- All link rows of one column.  When the column is the key column
itself, `df[[key_name, col]]` has duplicate labels, `val[col]` is a
sub-Series rather than a string, and no records are collected. -/
def xRecords (key cname : String) (rows : List (List Cell)) (ki j : Nat) :
    List (List Cell) :=
  if cname = key then []
  else (xPairs rows ki j).flatMap (fun p => rowRecords p.1 p.2)

/-- Clearing of an extracted column:
`df[col].apply(lambda s: '' if isinstance(s, str) else s)`. -/
def clearCell : Cell → Cell
  | .str _ => .str ""
  | c => c

/-- Clear column `j` of every row. -/
def clearColRows (rows : List (List Cell)) (j : Nat) : List (List Cell) :=
  setColMap rows j clearCell

/-- The `KeyError` raised by `df[[key_name, col]]` when the key column is
missing. -/
def keyErrMsg (key : String) : String := "KeyError: " ++ key

/-- The column loop of `extract_one_to_many_tables`, threading the
accumulated link tables and the (possibly cleared) main rows. -/
def xGo (key : String) (ki? : Option Nat) (pre : String) :
    List (Nat × String) → List (String × Table) → List (List Cell) →
    Except String (List (String × Table) × List (List Cell))
  | [], tabs, rows => .ok (tabs, rows)
  | (j, cname) :: rest, tabs, rows =>
      if xTrigger rows j then
        match ki? with
        | none => .error (keyErrMsg key)
        | some ki =>
            let recs := xRecords key cname rows ki j
            if recs.isEmpty then xGo key ki? pre rest tabs rows
            else
              xGo key ki? pre rest
                (tabs ++ [(pre ++ "_" ++ cname ++ "_table",
                           ⟨[key, cname ++ "_item", "index"], recs⟩)])
                (clearColRows rows j)
      else xGo key ki? pre rest tabs rows

/-- Column labels with their positions (`for col in df.columns`; pipeline
tables have unique labels, so label access is positional access). -/
def enumCols (cols : List String) : List (Nat × String) := enumFrom 0 cols

/-- `extract_one_to_many_tables(df, original_prefix, key_name)`.  Errors
model the uncaught `KeyError` when a triggered column is read together
with a missing key column. -/
def extract_one_to_many_tables (t : Table) (pre key : String) :
    Except String (List (String × Table) × Table) :=
  (xGo key (idxOf? key t.cols) pre (enumCols t.cols) [] t.rows).map
    (fun st => (st.1, ⟨t.cols, st.2⟩))

/-! ### process_all_jsons -/

/-- Outcome of one file inside the `try` block. -/
inductive FileOutcome where
  | empty : FileOutcome
  | processed : Table → List (String × Table) → FileOutcome
deriving DecidableEq

/-- The per-file pipeline of `process_all_jsons` (inside the `try`):
flatten, build the DataFrame, synthesize ids when no `*_id` column
exists, clean, then extract link tables keyed on the first id column. -/
def processOneFile (stem : String) (doc : Json) : Except String FileOutcome :=
  let records := jsonFileToFlatRecords doc
  if records.isEmpty then .ok .empty
  else
    let df := fromRecords records
    if df.cols.isEmpty then .ok .empty
    else
      let idCols := df.cols.filter (fun c => strEndsWith c "_id")
      let p : Table × List String :=
        if GENERATE_UNIQUE_IDS && idCols.isEmpty then (addUniqueIds df, ["unique_id"])
        else (df, idCols)
      let df2 := clean_and_standardize p.1
      match p.2 with
      | [] => .ok (.processed df2 [])
      | key :: _ =>
          (extract_one_to_many_tables df2 stem key).map
            (fun r => .processed r.2 r.1)

instance {ε α : Type} [DecidableEq ε] [DecidableEq α] : DecidableEq (Except ε α)
  | .ok a, .ok b =>
      if h : a = b then isTrue (by rw [h]) else
        isFalse (by intro hh; injection hh with h2; exact h h2)
  | .error a, .error b =>
      if h : a = b then isTrue (by rw [h]) else
        isFalse (by intro hh; injection hh with h2; exact h h2)
  | .ok _, .error _ => isFalse (fun h => Except.noConfusion h)
  | .error _, .ok _ => isFalse (fun h => Except.noConfusion h)

/-- The run summary accumulated by `process_all_jsons`. -/
structure Summary where
  processedFiles : List String
  errors : List (String × String)
  emptyFiles : List String
  tablesCreated : List String
deriving DecidableEq

def Summary.init : Summary := ⟨[], [], [], []⟩

/-- Concatenation of summaries (the accumulator is append-only). -/
def sumAppend (a b : Summary) : Summary :=
  ⟨a.processedFiles ++ b.processedFiles, a.errors ++ b.errors,
   a.emptyFiles ++ b.emptyFiles, a.tablesCreated ++ b.tablesCreated⟩

/-- One input file: its path and the result of reading + `json.load`
(`.error` models an unreadable file or malformed JSON). -/
structure FileInput where
  path : String
  parsed : Except String Json

/-- Does the walk consider the file at all (`filename.lower().endswith('.json')`)? -/
def isJsonName (p : String) : Bool := strEndsWith (lowerStr p) ".json"

/-- File stem used for link-table names (`os.path.splitext(filename)[0]`,
after the `.json` suffix check). -/
def fileStem (p : String) : String := strDropRight p 5

/-- The whole guarded body for one file: load outcome composed with the
per-file pipeline. -/
def fileResult (f : FileInput) : Except String FileOutcome :=
  match f.parsed with
  | .error e => .error e
  | .ok doc => processOneFile (fileStem f.path) doc

/-- The summary contribution of one file. -/
def fileSummary (f : FileInput) : Summary :=
  if isJsonName f.path then
    match fileResult f with
    | .error e => ⟨[], [(f.path, e)], [], []⟩
    | .ok .empty => ⟨[], [], [f.path], []⟩
    | .ok (.processed _ aux) => ⟨[f.path], [], [], aux.map (fun a => a.1)⟩
  else Summary.init

/-- One iteration of the `os.walk` loop: non-JSON names are skipped, a
failing file lands in `errors` with its path and message, and the loop
continues regardless. -/
def stepFile (s : Summary) (f : FileInput) : Summary := sumAppend s (fileSummary f)

/-- `process_all_jsons`, over the sequence of files the directory walk
yields: every file is processed in order and the accumulated summary is
always produced. -/
def process_all_jsons (files : List FileInput) : Summary :=
  files.foldl stepFile Summary.init

/-! ### Concrete scenario inputs -/

/-- The end-to-end scenario input
`{"media": [{"id": 1, "likes_count": "12", "hashtags": "sun, beach"}]}`. -/
def postsDoc : Json :=
  .obj [("media",
    .arr [.obj [("id", .num 1), ("likes_count", .str "12"),
                ("hashtags", .str "sun, beach")]])]

/-- MD5 of `"1||12||sun, beach"`, the `unique_id` the pipeline generates
for the scenario row (`"id"` does not end with `"_id"`). -/
def postsHash : String := "48da9d58026bc74e999653f2124e1213"

/-- Input `{"a": "x", "b": null}`: the column `b` is all-NA and is dropped
by cleanup, after the identifier has already been computed. -/
def abDoc : Json := .obj [("a", .str "x"), ("b", .null)]

/-! ### Generic lemmas -/

theorem sumAppend_assoc (a b c : Summary) :
    sumAppend (sumAppend a b) c = sumAppend a (sumAppend b c) := by
  simp [sumAppend, List.append_assoc]

theorem sumAppend_init_left (a : Summary) : sumAppend Summary.init a = a := by
  simp [sumAppend, Summary.init]

theorem sumAppend_init_right (a : Summary) : sumAppend a Summary.init = a := by
  simp [sumAppend, Summary.init]

theorem foldl_stepFile_eq (l : List FileInput) :
    ∀ s : Summary, l.foldl stepFile s = sumAppend s (process_all_jsons l) := by
  induction l with
  | nil => intro s; simp [process_all_jsons, sumAppend_init_right]
  | cons f l ih =>
      intro s
      have h2 : process_all_jsons (f :: l) = sumAppend (fileSummary f) (process_all_jsons l) := by
        show List.foldl stepFile (stepFile Summary.init f) l = _
        rw [ih (stepFile Summary.init f)]
        simp [stepFile, sumAppend_init_left]
      show List.foldl stepFile (stepFile s f) l = _
      rw [ih (stepFile s f), h2, stepFile, sumAppend_assoc]

theorem process_all_jsons_append (a b : List FileInput) :
    process_all_jsons (a ++ b) =
      sumAppend (process_all_jsons a) (process_all_jsons b) := by
  show List.foldl stepFile Summary.init (a ++ b) = _
  rw [List.foldl_append, foldl_stepFile_eq]
  rfl

theorem process_all_jsons_cons (f : FileInput) (l : List FileInput) :
    process_all_jsons (f :: l) =
      sumAppend (fileSummary f) (process_all_jsons l) := by
  show List.foldl stepFile (stepFile Summary.init f) l = _
  rw [foldl_stepFile_eq]
  simp [stepFile, sumAppend_init_left]

/-! ### Claim theorems: C1 -/

/-- C1: for `posts.json` = `{"media": [{"id": 1, "likes_count": "12",
"hashtags": "sun, beach"}]}`, the claim that the link table's foreign-key
value is `1` (the row's `id`) is false: `"id"` does not end with `"_id"`,
so the pipeline synthesizes a `unique_id` hash column and uses it as the
link key; the emitted foreign-key cells are that hash, not the integer 1. -/
theorem C1_counterexample :
    processOneFile "posts" postsDoc =
      .ok (.processed
        ⟨["id", "likes_count", "hashtags", "unique_id"],
         [[.int 1, .int 12, .str "", .str postsHash]]⟩
        [("posts_hashtags_table",
          ⟨["unique_id", "hashtags_item", "index"],
           [[.str postsHash, .str "sun", .int 0],
            [.str postsHash, .str "beach", .int 1]]⟩)]) ∧
    (Cell.str postsHash ≠ Cell.int 1) ∧
    postsHash = md5hex "1||12||sun, beach" := by
  refine ⟨by decide, by decide, by decide⟩

/-- C1 (amended): the scenario produces a main table with one row with
`id = 1`, integer `likes_count = 12` and empty `hashtags`, and a link
table `posts_hashtags_table` with two rows for `"sun"` (index 0) and
`"beach"` (index 1); the foreign-key column is the synthesized
`unique_id` (the MD5 of `"1||12||sun, beach"`), not the `id` column. -/
theorem C1_amended :
    processOneFile "posts" postsDoc =
      .ok (.processed
        ⟨["id", "likes_count", "hashtags", "unique_id"],
         [[.int 1, .int 12, .str "", .str (md5hex "1||12||sun, beach")]]⟩
        [("posts_hashtags_table",
          ⟨["unique_id", "hashtags_item", "index"],
           [[.str (md5hex "1||12||sun, beach"), .str "sun", .int 0],
            [.str (md5hex "1||12||sun, beach"), .str "beach", .int 1]]⟩)]) := by
  decide

/-! ### Claim theorems: C2 -/

/-- C2: identifier generation is not content-injective.  The rows
`("a||b", "c")` and `("a", "b||c")` differ in every value, yet both join
to the key string `"a||b||c"` and receive the same MD5 identifier. -/
theorem C2_counterexample :
    create_unique_id [("c1", .str "a||b"), ("c2", .str "c")] =
      create_unique_id [("c1", .str "a"), ("c2", .str "b||c")] ∧
    ([Cell.str "a||b", Cell.str "c"] ≠ [Cell.str "a", Cell.str "b||c"]) := by
  exact ⟨by decide, by decide⟩

/-- C2 (amended): identifier generation is deterministic — it is a pure
function of the sequence of row values (hence reproducible across reruns
with no external state): two rows with the same value sequence get the
same identifier.  Content-injectivity fails when values contain the
`"||"` separator (and for MD5 collisions). -/
theorem C2_amended (r1 r2 : List (String × Cell))
    (h : r1.map Prod.snd = r2.map Prod.snd) :
    create_unique_id r1 = create_unique_id r2 := by
  have h2 : r1.map (fun kv => pyStrCell kv.2) = r2.map (fun kv => pyStrCell kv.2) := by
    have e1 : r1.map (fun kv => pyStrCell kv.2) = (r1.map Prod.snd).map pyStrCell := by
      simp [List.map_map, Function.comp]
    have e2 : r2.map (fun kv => pyStrCell kv.2) = (r2.map Prod.snd).map pyStrCell := by
      simp [List.map_map, Function.comp]
    rw [e1, e2, h]
  simp only [create_unique_id, h2]

/-- Witness for C2 (amended): two distinctly-labelled rows with the same
values receive the same identifier. -/
theorem C2_amended_witness :
    ([("u", Cell.str "v"), ("w", Cell.int 3)].map Prod.snd =
      [("a", Cell.str "v"), ("b", Cell.int 3)].map Prod.snd) ∧
    create_unique_id [("u", Cell.str "v"), ("w", Cell.int 3)] =
      create_unique_id [("a", Cell.str "v"), ("b", Cell.int 3)] :=
  ⟨by decide, C2_amended _ _ (by decide)⟩

/-! ### Claim theorems: C9 -/

/-- C9: the two `clean_and_standardize` implementations are not
equivalent.  On the one-cell table with column `Likes_Count` and value
`"12"`, `preprocess.py` lower-cases the column name and coerces the
metric column to integer 12, while `preprocess11.py` leaves both
unchanged. -/
theorem C9_counterexample :
    clean_and_standardize ⟨["Likes_Count"], [[.str "12"]]⟩ =
      ⟨["likes_count"], [[.int 12]]⟩ ∧
    clean_and_standardize11 ⟨["Likes_Count"], [[.str "12"]]⟩ =
      ⟨["Likes_Count"], [[.str "12"]]⟩ ∧
    clean_and_standardize ⟨["Likes_Count"], [[.str "12"]]⟩ ≠
      clean_and_standardize11 ⟨["Likes_Count"], [[.str "12"]]⟩ := by
  exact ⟨by decide, by decide, by decide⟩

/-! ### Claim theorems: C3 -/

theorem append_singleton_inj {α : Type} {l1 l2 : List α} {x1 x2 : α}
    (h : l1 ++ [x1] = l2 ++ [x2]) : l1 = l2 ∧ x1 = x2 := by
  have h2 := congrArg List.reverse h
  simp only [List.reverse_append, List.reverse_cons, List.reverse_nil,
    List.nil_append, List.singleton_append, List.cons.injEq] at h2
  exact ⟨by
    have := congrArg List.reverse h2.2
    simpa using this, h2.1⟩

theorem contains_map_inj {α β : Type} [BEq α] [LawfulBEq α] [BEq β] [LawfulBEq β]
    (f : α → β) (hf : Function.Injective f) (l : List α) (a : α) :
    (l.map f).contains (f a) = l.contains a := by
  induction l with
  | nil => rfl
  | cons b l ih =>
      simp only [List.map_cons, List.contains_cons, ih]
      have : (f a == f b) = (a == b) := by
        by_cases h : a = b
        · simp [h]
        · have h2 : f a ≠ f b := fun hh => h (hf hh)
          simp [h, h2]
      rw [this]

theorem pdDropDupAux_map (f : List Cell → List Cell) (hf : Function.Injective f) :
    ∀ (rows seen : List (List Cell)),
      pdDropDupAux (seen.map f) (rows.map f) = (pdDropDupAux seen rows).map f := by
  intro rows
  induction rows with
  | nil => intro seen; rfl
  | cons r rest ih =>
      intro seen
      show pdDropDupAux (seen.map f) (f r :: rest.map f) = _
      rw [pdDropDupAux, pdDropDupAux, contains_map_inj f hf]
      by_cases h : seen.contains r = true
      · rw [if_pos h, if_pos h, ih seen]
      · rw [if_neg h, if_neg h]
        have : seen.map f ++ [f r] = (seen ++ [r]).map f := by
          simp
        rw [this, ih (seen ++ [r])]
        rfl

/-- C3: the identifier is not computed only over surviving columns.  On
input `{"a": "x", "b": null}` the all-NA column `b` is later dropped, yet
the synthesized identifier is the MD5 of `"x||None"` (including `b`'s
value), not of `"x"` as id-assignment-after-cleanup would give. -/
theorem C3_counterexample :
    processOneFile "f" abDoc =
      .ok (.processed
        ⟨["a", "unique_id"], [[.str "x", .str (md5hex "x||None")]]⟩ []) ∧
    Cell.str (md5hex "x||None") ≠
      Cell.str (create_unique_id [("a", Cell.str "x")]) := by
  exact ⟨by decide, by decide⟩

/-- C3 (amended): identifier assignment happens before duplicate-row
removal and empty-column removal: each row's synthesized identifier is
the hash of its full original cell sequence (including columns later
dropped as all-empty).  Exact duplicates are still collapsed, because
rows with equal content receive equal identifiers — deduplicating after
id assignment equals assigning ids after deduplicating. -/
theorem C3_amended (t : Table) :
    (addUniqueIds t).rows =
      t.rows.map (fun r => r ++ [.str (create_unique_id (t.cols.zip r))]) ∧
    pdDropDuplicates ((addUniqueIds t).rows) =
      (addUniqueIds ⟨t.cols, pdDropDuplicates t.rows⟩).rows := by
  refine ⟨rfl, ?_⟩
  have hf : Function.Injective
      (fun r => r ++ [Cell.str (create_unique_id (t.cols.zip r))]) := by
    intro r1 r2 h
    exact (append_singleton_inj h).1
  have h := pdDropDupAux_map _ hf t.rows []
  simpa [addUniqueIds, pdDropDuplicates] using h

/-! ### Claim theorems: C7 -/

/-- C7: a file whose processing raises (malformed JSON, unreadable file,
or any exception inside the per-file pipeline) is caught at the file
boundary and recorded in the summary's errors with its path and message;
the summary decomposes around it, so every subsequent file is processed
exactly as it would be alone and the run always completes with a summary. -/
theorem C7_error_isolated (l1 l2 : List FileInput) (f : FileInput) (e : String)
    (hj : isJsonName f.path = true) (hf : fileResult f = .error e) :
    ((f.path, e) ∈ (process_all_jsons (l1 ++ f :: l2)).errors) ∧
    process_all_jsons (l1 ++ f :: l2) =
      sumAppend (process_all_jsons l1)
        (sumAppend ⟨[], [(f.path, e)], [], []⟩ (process_all_jsons l2)) := by
  have hfs : fileSummary f = ⟨[], [(f.path, e)], [], []⟩ := by
    simp [fileSummary, hj, hf]
  have hdec : process_all_jsons (l1 ++ f :: l2) =
      sumAppend (process_all_jsons l1)
        (sumAppend (fileSummary f) (process_all_jsons l2)) := by
    rw [process_all_jsons_append, process_all_jsons_cons]
  rw [hfs] at hdec
  refine ⟨?_, hdec⟩
  rw [hdec]
  simp [sumAppend]

/-- Witness for C7: a malformed middle file is recorded and the files
around it are still processed. -/
theorem C7_witness :
    isJsonName "bad.json" = true ∧
    fileResult ⟨"bad.json", .error "Expecting value"⟩ = .error "Expecting value" ∧
    (("bad.json", "Expecting value") ∈
      (process_all_jsons
        [⟨"a.json", .ok (.obj [("k", .str "v")])⟩,
         ⟨"bad.json", .error "Expecting value"⟩,
         ⟨"c.json", .ok (.arr [])⟩]).errors) :=
  ⟨by decide, rfl,
   (C7_error_isolated [⟨"a.json", .ok (.obj [("k", .str "v")])⟩]
     [⟨"c.json", .ok (.arr [])⟩] ⟨"bad.json", .error "Expecting value"⟩
     "Expecting value" (by decide) rfl).1⟩

/-! ### Dict / emission-sequence lemmas (for C4 and C5) -/

/-- Number of assignments targeting key `k` in an emission sequence. -/
def countKey (es : List (String × Json)) (k : String) : Nat :=
  (es.filter (fun e => e.1 == k)).length

theorem alookup_upsert_self : ∀ (l : List (String × Json)) (k : String) (v : Json),
    alookup (upsert l k v) k = some v := by
  intro l k v
  induction l with
  | nil => simp [upsert, alookup]
  | cons e rest ih =>
      by_cases h : e.1 = k
      · simp [upsert, alookup, h]
      · simp [upsert, alookup, h, ih]

theorem alookup_upsert_ne (l : List (String × Json)) (k' k : String) (v : Json)
    (h : k' ≠ k) : alookup (upsert l k' v) k = alookup l k := by
  induction l with
  | nil => simp [upsert, alookup, h]
  | cons e rest ih =>
      by_cases h2 : e.1 = k'
      · simp [upsert, alookup, h2]
        rw [if_neg (by rw [h2] at *; exact h)]
        rw [if_neg (by rw [h2] at *; exact h)]
      · simp only [upsert, if_neg h2]
        by_cases h3 : e.1 = k
        · simp [alookup, h3]
        · simp [alookup, h3, ih]

theorem alookup_applyEmits_not_mem :
    ∀ (es : List (String × Json)) (out : List (String × Json)) (k : String),
      (∀ e ∈ es, e.1 ≠ k) →
      alookup (applyEmits out es) k = alookup out k := by
  intro es
  induction es with
  | nil => intro out k _; rfl
  | cons e rest ih =>
      intro out k h
      show alookup (applyEmits (upsert out e.1 e.2) rest) k = _
      rw [ih (upsert out e.1 e.2) k (fun e' he' => h e' (List.mem_cons_of_mem e he')),
        alookup_upsert_ne out e.1 k e.2 (h e (List.mem_cons_self e rest))]

theorem countKey_zero (es : List (String × Json)) (k : String)
    (h : countKey es k = 0) : ∀ e ∈ es, e.1 ≠ k := by
  intro e he hk
  have h2 : e ∈ es.filter (fun e => e.1 == k) := by
    apply List.mem_filter.mpr
    exact ⟨he, by simp [hk]⟩
  have h3 := List.length_pos_of_mem h2
  rw [countKey] at h
  omega

theorem applyEmits_lookup_unique :
    ∀ (es : List (String × Json)) (out : List (String × Json)) (k : String) (v : Json),
      (k, v) ∈ es → countKey es k = 1 →
      alookup (applyEmits out es) k = some v := by
  intro es
  induction es with
  | nil => intro out k v h _; cases h
  | cons e rest ih =>
      intro out k v hmem hcount
      by_cases he : e.1 = k
      · have hcr : countKey rest k = 0 := by
          have : countKey (e :: rest) k = 1 + countKey rest k := by
            simp [countKey, List.filter_cons, he]
            omega
          omega
        have hv : v = e.2 := by
          rcases List.mem_cons.mp hmem with h1 | h1
          · rw [← h1]
          · exact absurd rfl (countKey_zero rest k hcr (k, v) h1)
        show alookup (applyEmits (upsert out e.1 e.2) rest) k = some v
        rw [alookup_applyEmits_not_mem rest _ k (countKey_zero rest k hcr),
          he, alookup_upsert_self, hv]
      · have hmem2 : (k, v) ∈ rest := by
          rcases List.mem_cons.mp hmem with h1 | h1
          · exact absurd (by rw [← h1]) (Ne.symm he)
          · exact h1
        have hcount2 : countKey rest k = 1 := by
          have : countKey (e :: rest) k = countKey rest k := by
            simp [countKey, List.filter_cons, he]
          omega
        exact ih (upsert out e.1 e.2) k v hmem2 hcount2

theorem upsert_keys (l : List (String × Json)) (k : String) (v : Json) :
    (upsert l k v).map Prod.fst = l.map Prod.fst ∨
    (upsert l k v).map Prod.fst = l.map Prod.fst ++ [k] := by
  induction l with
  | nil => right; rfl
  | cons e rest ih =>
      by_cases h : e.1 = k
      · left; simp [upsert, h]
      · rcases ih with h2 | h2
        · left; simp [upsert, h, h2]
        · right; simp [upsert, h, h2]

theorem upsert_nodup (l : List (String × Json)) (k : String) (v : Json)
    (h : (l.map Prod.fst).Nodup) : ((upsert l k v).map Prod.fst).Nodup := by
  induction l with
  | nil => simp [upsert]
  | cons e rest ih =>
      simp only [List.map_cons, List.nodup_cons] at h
      by_cases h2 : e.1 = k
      · simp only [upsert, if_pos h2, List.map_cons, List.nodup_cons]
        exact ⟨by rw [← h2] at *; exact h.1, h.2⟩
      · simp only [upsert, if_neg h2, List.map_cons, List.nodup_cons]
        refine ⟨?_, ih h.2⟩
        intro hmem
        rcases upsert_keys rest k v with h3 | h3
        · rw [h3] at hmem; exact h.1 hmem
        · rw [h3] at hmem
          rcases List.mem_append.mp hmem with h4 | h4
          · exact h.1 h4
          · simp at h4
            exact h2 (by rw [h4])

theorem applyEmits_nodup :
    ∀ (es : List (String × Json)) (out : List (String × Json)),
      (out.map Prod.fst).Nodup → ((applyEmits out es).map Prod.fst).Nodup := by
  intro es
  induction es with
  | nil => intro out h; exact h
  | cons e rest ih =>
      intro out h
      exact ih (upsert out e.1 e.2) (upsert_nodup out e.1 e.2 h)

theorem alookup_mem : ∀ (kvs : List (String × Json)) (k : String) (v : Json),
    alookup kvs k = some v → (k, v) ∈ kvs := by
  intro kvs
  induction kvs with
  | nil => intro k v h; cases h
  | cons e rest ih =>
      intro k v h
      rw [alookup] at h
      by_cases h2 : e.1 = k
      · rw [if_pos h2] at h
        injection h with h3
        have he : (k, v) = e := by rw [← h2, ← h3]
        rw [he]
        exact List.mem_cons_self e rest
      · rw [if_neg h2] at h
        exact List.mem_cons_of_mem e (ih k v h)

theorem alookup_mem_fst (kvs : List (String × Json)) (k : String) (v : Json)
    (h : alookup kvs k = some v) : k ∈ kvs.map Prod.fst :=
  List.mem_map.mpr ⟨(k, v), alookup_mem kvs k v h, rfl⟩

theorem countKey_eq_count (es : List (String × Json)) (k : String) :
    countKey es k = (es.map Prod.fst).count k := by
  rw [countKey, List.count, List.countP_map, List.countP_eq_length_filter]
  rfl

theorem countKey_eq_one_of_nodup (es : List (String × Json)) (k : String)
    (hn : (es.map Prod.fst).Nodup) (hm : k ∈ es.map Prod.fst) :
    countKey es k = 1 := by
  rw [countKey_eq_count]
  have h1 := List.nodup_iff_count_le_one.mp hn k
  have h2 := List.count_pos_iff.mpr hm
  omega

/-! ### Key paths reachable by the flatten traversal (for C4) -/

/-- Does the flatten traversal, descending from `y` along the path `p`
(object keys, and indices of arrays whose elements are all objects),
reach the value `z`? -/
def reachb : Json → List (String ⊕ Nat) → Json → Bool
  | y, [], z => decide (y = z)
  | .obj kvs, .inl k :: p, z =>
      match alookup kvs k with
      | some v => reachb v p z
      | none => false
  | .arr xs, .inr i :: p, z =>
      jsonAllObj xs &&
      (match xs.get? i with
       | some w => reachb w p z
       | none => false)
  | _, _ :: _, _ => false

/-- The flattened key-path text: each segment followed by the separator. -/
def pathStr (sep : String) : List (String ⊕ Nat) → String
  | [] => ""
  | .inl k :: p => k ++ sep ++ pathStr sep p
  | .inr i :: p => toString i ++ sep ++ pathStr sep p

/-- The flattened key of a path under the default separator, as produced
by `name[:-1]` at the point of emission. -/
def pathKey (p : List (String ⊕ Nat)) : String := strDropRight (pathStr "_" p) 1

theorem mem_emitsObj_of_mem (sep : String) :
    ∀ (kvs : List (String × Json)) (k : String) (v : Json) (name : String)
      (e : String × Json),
      (k, v) ∈ kvs → e ∈ emitsAux sep v (name ++ k ++ sep) →
      e ∈ emitsObj sep kvs name := by
  intro kvs
  induction kvs with
  | nil => intro k v name e h _; cases h
  | cons kv rest ih =>
      intro k v name e hmem he
      rcases List.mem_cons.mp hmem with h1 | h1
      · rw [emitsObj]
        apply List.mem_append_left
        rw [← h1]
        exact he
      · rw [emitsObj]
        exact List.mem_append_right _ (ih k v name e h1 he)

theorem mem_emitsArr_of_get (sep : String) :
    ∀ (xs : List Json) (base i : Nat) (w : Json) (name : String)
      (e : String × Json),
      xs.get? i = some w → e ∈ emitsAux sep w (name ++ toString (base + i) ++ sep) →
      e ∈ emitsArr sep xs base name := by
  intro xs
  induction xs with
  | nil => intro base i w name e h _; cases h
  | cons x rest ih =>
      intro base i w name e hget he
      match i with
      | 0 =>
          have hw : w = x := by
            injection hget with h2
            rw [← h2]
          rw [emitsArr]
          apply List.mem_append_left
          rw [hw] at he
          exact he
      | i + 1 =>
          rw [emitsArr]
          apply List.mem_append_right
          apply ih (base + 1) i w name e hget
          have har : base + (i + 1) = (base + 1) + i := by omega
          rw [har] at he
          exact he

theorem emits_mem_of_reach (sep : String) :
    ∀ (p : List (String ⊕ Nat)) (y : Json) (xs : List Json) (name : String),
      reachb y p (.arr xs) = true → jsonAllObj xs = false →
      (strDropRight (name ++ pathStr sep p) 1,
        Json.str (joinCommaSpace (xs.map pyStr))) ∈ emitsAux sep y name := by
  intro p
  induction p with
  | nil =>
      intro y xs name hr hobj
      have hy : y = .arr xs := by
        rw [reachb] at hr
        exact of_decide_eq_true hr
      rw [hy, emitsAux, if_neg (by rw [hobj]; intro h; cases h)]
      rw [pathStr, String.append_empty]
      exact List.mem_singleton.mpr rfl
  | cons seg p ih =>
      intro y xs name hr hobj
      match seg, y with
      | Sum.inl k, .obj kvs =>
          rw [reachb] at hr
          rcases halk : alookup kvs k with _ | v
          · rw [halk] at hr; cases hr
          · rw [halk] at hr
            rw [emitsAux]
            have hmem := alookup_mem kvs k v halk
            have hkey : name ++ pathStr sep (Sum.inl k :: p) =
                (name ++ k ++ sep) ++ pathStr sep p := by
              rw [pathStr, String.append_assoc, String.append_assoc,
                String.append_assoc]
            rw [hkey]
            exact mem_emitsObj_of_mem sep kvs k v name _ hmem
              (ih v xs (name ++ k ++ sep) hr hobj)
      | Sum.inr i, .arr ys =>
          rw [reachb, Bool.and_eq_true] at hr
          obtain ⟨hall, hr2⟩ := hr
          rcases hget : ys.get? i with _ | w
          · rw [hget] at hr2; cases hr2
          · rw [hget] at hr2
            rw [emitsAux, if_pos hall]
            have hkey : name ++ pathStr sep (Sum.inr i :: p) =
                (name ++ toString (0 + i) ++ sep) ++ pathStr sep p := by
              rw [pathStr, Nat.zero_add, String.append_assoc, String.append_assoc,
                String.append_assoc]
            rw [hkey]
            exact mem_emitsArr_of_get sep ys 0 i w name _ hget
              (ih w xs (name ++ toString (0 + i) ++ sep) hr2 hobj)

/-- C4: the claim fails under key collisions.  In
`{"a": {"x": [1, 2]}, "a_x": 5}` the scalar array `[1, 2]` sits at key
path `a_x`, yet the flattened result binds `a_x` to `5`: the later
sibling assignment overwrites the joined list (last-write-wins). -/
theorem C4_counterexample :
    reachb (.obj [("a", .obj [("x", .arr [.num 1, .num 2])]), ("a_x", .num 5)])
      [.inl "a", .inl "x"] (.arr [.num 1, .num 2]) = true ∧
    pathKey [.inl "a", .inl "x"] = "a_x" ∧
    ([Json.num 1, Json.num 2] ≠ []) ∧
    (∀ e ∈ [Json.num 1, Json.num 2], isObjJson e = false) ∧
    flatten_json (.obj [("a", .obj [("x", .arr [.num 1, .num 2])]), ("a_x", .num 5)]) =
      [("a_x", .num 5)] ∧
    alookup
      (flatten_json (.obj [("a", .obj [("x", .arr [.num 1, .num 2])]), ("a_x", .num 5)]))
      "a_x" ≠
      some (.str (joinCommaSpace ([Json.num 1, Json.num 2].map pyStr))) := by
  refine ⟨by decide, by decide, by decide, by decide, by decide, by decide⟩

/-- C4 (amended): for every non-empty array of non-object elements at key
path `k` in the input, provided no other branch of the input emits the
same flattened key `k` (collisions are resolved last-write-wins), the
flattened result binds `k` — exactly once — to the `", "`-join of the
stringified elements. -/
theorem C4_amended (y : Json) (p : List (String ⊕ Nat)) (xs : List Json)
    (hr : reachb y p (.arr xs) = true)
    (hne : xs ≠ [])
    (hno : ∀ e ∈ xs, isObjJson e = false)
    (hu : countKey (emitsAux "_" y "") (pathKey p) = 1) :
    alookup (flatten_json y) (pathKey p) =
      some (.str (joinCommaSpace (xs.map pyStr))) ∧
    countKey (flatten_json y) (pathKey p) = 1 := by
  have hobj : jsonAllObj xs = false := by
    match xs, hne with
    | x :: rest, _ =>
        have hx := hno x (List.mem_cons_self x rest)
        simp [jsonAllObj, hx]
  have hmem := emits_mem_of_reach "_" p y xs "" hr hobj
  rw [String.empty_append] at hmem
  have hflat : flatten_json y = applyEmits [] (emitsAux "_" y "") :=
    flatten_json_eq_applyEmits y "" "_"
  constructor
  · rw [hflat]
    exact applyEmits_lookup_unique _ [] _ _ hmem hu
  · have hnodup : ((flatten_json y).map Prod.fst).Nodup := by
      rw [hflat]
      exact applyEmits_nodup _ [] (by simp)
    have hsome : alookup (flatten_json y) (pathKey p) =
        some (.str (joinCommaSpace (xs.map pyStr))) := by
      rw [hflat]
      exact applyEmits_lookup_unique _ [] _ _ hmem hu
    exact countKey_eq_one_of_nodup _ _ hnodup (alookup_mem_fst _ _ _ hsome)

/-- Witness for C4 (amended): `{"tags": ["a", "b"]}` flattens to a single
binding `tags ↦ "a, b"`. -/
theorem C4_amended_witness :
    reachb (.obj [("tags", .arr [.str "a", .str "b"])]) [.inl "tags"]
      (.arr [.str "a", .str "b"]) = true ∧
    alookup (flatten_json (.obj [("tags", .arr [.str "a", .str "b"])]))
      (pathKey [.inl "tags"]) = some (.str "a, b") :=
  ⟨by decide,
   (C4_amended (.obj [("tags", .arr [.str "a", .str "b"])]) [.inl "tags"]
      [.str "a", .str "b"] (by decide) (by decide) (by decide) (by decide)).1⟩

/-! ### Claim theorems: C5 -/

def isArrJson : Json → Bool
  | .arr _ => true
  | _ => false

/-- Is the JSON value a scalar (neither object nor array)? -/
def isScalarJson (j : Json) : Bool := !(isObjJson j || isArrJson j)

theorem upsert_not_mem (l : List (String × Json)) (k : String) (v : Json)
    (h : ∀ e ∈ l, e.1 ≠ k) : upsert l k v = l ++ [(k, v)] := by
  induction l with
  | nil => rfl
  | cons e rest ih =>
      rw [upsert, if_neg (h e (List.mem_cons_self e rest)), List.cons_append]
      rw [ih (fun e' he' => h e' (List.mem_cons_of_mem e he'))]

theorem strDropRight_append_underscore (s : String) :
    strDropRight (s ++ "_") 1 = s := by
  cases s with
  | mk data =>
      rw [strDropRight, String.data_append]
      show String.mk ((data ++ ['_']).take ((data ++ ['_']).length - 1)) = _
      rw [List.length_append]
      simp [List.take_left]

theorem flattenObj_scalars :
    ∀ (kvs : List (String × Json)) (out : List (String × Json)),
      (∀ kv ∈ kvs, isScalarJson kv.2 = true) →
      ((kvs.map Prod.fst).Nodup) →
      (∀ kv ∈ kvs, ∀ e ∈ out, e.1 ≠ kv.1) →
      flattenObj "_" kvs "" out = out ++ kvs := by
  intro kvs
  induction kvs with
  | nil => intro out _ _ _; rw [flattenObj, List.append_nil]
  | cons kv rest ih =>
      intro out hsc hnd hdis
      rw [flattenObj]
      have hkey : strDropRight ("" ++ kv.1 ++ "_") 1 = kv.1 := by
        rw [String.empty_append, strDropRight_append_underscore]
      have hout : flattenAux "_" kv.2 ("" ++ kv.1 ++ "_") out = out ++ [kv] := by
        have hs := hsc kv (List.mem_cons_self kv rest)
        have hd : ∀ e ∈ out, e.1 ≠ kv.1 :=
          fun e he => hdis kv (List.mem_cons_self kv rest) e he
        match kv, hs with
        | (k, .null), _ => rw [flattenAux]; rw [hkey] at *; exact upsert_not_mem out k _ hd
        | (k, .bool b), _ => rw [flattenAux]; rw [hkey] at *; exact upsert_not_mem out k _ hd
        | (k, .num n), _ => rw [flattenAux]; rw [hkey] at *; exact upsert_not_mem out k _ hd
        | (k, .str s), _ => rw [flattenAux]; rw [hkey] at *; exact upsert_not_mem out k _ hd
      rw [hout]
      have hnd2 : (rest.map Prod.fst).Nodup := by
        rw [List.map_cons, List.nodup_cons] at hnd
        exact hnd.2
      have hk_not : kv.1 ∉ rest.map Prod.fst := by
        rw [List.map_cons, List.nodup_cons] at hnd
        exact hnd.1
      have hdis2 : ∀ kv' ∈ rest, ∀ e ∈ out ++ [kv], e.1 ≠ kv'.1 := by
        intro kv' hkv' e he
        rcases List.mem_append.mp he with h1 | h1
        · exact hdis kv' (List.mem_cons_of_mem kv hkv') e h1
        · have : e = kv := List.mem_singleton.mp h1
          rw [this]
          intro hcon
          exact hk_not (List.mem_map.mpr ⟨kv', hkv', hcon.symm⟩)
      rw [ih (out ++ [kv]) (fun kv' h => hsc kv' (List.mem_cons_of_mem kv h)) hnd2 hdis2]
      simp

/-- C5: flattening an already-flat object (all values scalar) with the
empty prefix returns exactly the same key/value pairs. -/
theorem C5_flatten_idempotent (kvs : List (String × Json))
    (h1 : (kvs.map Prod.fst).Nodup)
    (h2 : ∀ kv ∈ kvs, isScalarJson kv.2 = true) :
    flatten_json (.obj kvs) = kvs := by
  show flattenAux "_" (.obj kvs) "" [] = kvs
  rw [flattenAux, flattenObj_scalars kvs [] h2 h1 (by intro kv _ e he; cases he)]
  rfl

/-- Witness for C5: a two-field flat record flattens to itself. -/
theorem C5_witness :
    ([("k", Json.str "v"), ("n", Json.num 3)].map Prod.fst).Nodup ∧
    flatten_json (.obj [("k", .str "v"), ("n", .num 3)]) =
      [("k", .str "v"), ("n", .num 3)] :=
  ⟨by decide,
   C5_flatten_idempotent [("k", .str "v"), ("n", .num 3)] (by decide) (by decide)⟩

/-! ### Specification form of the extraction loop (for C6, C8, C10)

The loop mutates only the column being processed, never the key column
(clearing requires collected records, and the key column never collects
any), so it is equivalent to clearing an index set computed column-wise
from the original rows.  The lemmas below establish that equivalence. -/

/-- Clear the cells of a row whose (absolute) column index lies in `S`;
`b` is the index of the first cell. -/
def clearRow (S : List Nat) : Nat → List Cell → List Cell
  | _, [] => []
  | j, c :: r => (if S.contains j then clearCell c else c) :: clearRow S (j + 1) r

/-- Clear the columns with indices in `S` in every row. -/
def clearAt (S : List Nat) (rows : List (List Cell)) : List (List Cell) :=
  rows.map (clearRow S 0)

/-- Does column `jc` of the original table get a link table (trigger
fires and records are non-empty)? -/
def xCond (t : Table) (key : String) (ki : Nat) (jc : Nat × String) : Bool :=
  xTrigger t.rows jc.1 && !(xRecords key jc.2 t.rows ki jc.1).isEmpty

/-- The link table of one column, computed from the original rows. -/
def xTab (t : Table) (pre key : String) (ki : Nat) (jc : Nat × String) :
    Option (String × Table) :=
  if xCond t key ki jc then
    some (pre ++ "_" ++ jc.2 ++ "_table",
      ⟨[key, jc.2 ++ "_item", "index"], xRecords key jc.2 t.rows ki jc.1⟩)
  else none

/-- The set of column indices the extraction clears. -/
def xClears (t : Table) (key : String) (ki : Nat) : List Nat :=
  (enumCols t.cols).filterMap
    (fun jc => if xCond t key ki jc then some jc.1 else none)

theorem clearCell_idem (c : Cell) : clearCell (clearCell c) = clearCell c := by
  cases c <;> rfl

theorem clearCell_nan : clearCell .nan = .nan := rfl

theorem getCell_clearRow (S : List Nat) :
    ∀ (r : List Cell) (b j : Nat),
      getCell (clearRow S b r) j =
        if S.contains (b + j) then clearCell (getCell r j) else getCell r j := by
  intro r
  induction r with
  | nil =>
      intro b j
      by_cases h : S.contains (b + j) = true
      · rw [if_pos h]; rfl
      · rw [if_neg h]; rfl
  | cons c r ih =>
      intro b j
      match j with
      | 0 =>
          show (if S.contains b then clearCell c else c) =
            (if S.contains (b + 0) then clearCell (getCell (c :: r) 0) else getCell (c :: r) 0)
          rw [Nat.add_zero]
          rfl
      | j + 1 =>
          show getCell (clearRow S (b + 1) r) j =
            (if S.contains (b + (j + 1)) then clearCell (getCell (c :: r) (j + 1))
             else getCell (c :: r) (j + 1))
          rw [ih (b + 1) j]
          have h2 : b + 1 + j = b + (j + 1) := by omega
          rw [h2]
          rfl

theorem getCell_clearRow0 (S : List Nat) (r : List Cell) (j : Nat) :
    getCell (clearRow S 0 r) j =
      if S.contains j then clearCell (getCell r j) else getCell r j := by
  have h := getCell_clearRow S r 0 j
  rw [Nat.zero_add] at h
  exact h

theorem colCells_clearAt (S : List Nat) (rows : List (List Cell)) (j : Nat)
    (h : S.contains j = false) :
    colCells (clearAt S rows) j = colCells rows j := by
  rw [colCells, colCells, clearAt, List.map_map]
  apply List.map_congr_left
  intro r _
  show getCell (clearRow S 0 r) j = getCell r j
  rw [getCell_clearRow0, h]
  rfl

theorem xPairs_clearAt (S : List Nat) (rows : List (List Cell)) (ki j : Nat)
    (h1 : S.contains ki = false) (h2 : S.contains j = false) :
    xPairs (clearAt S rows) ki j = xPairs rows ki j := by
  rw [xPairs, xPairs, clearAt, List.filterMap_map]
  apply List.filterMap_congr
  intro r _
  have e1 : getCell (clearRow S 0 r) ki = getCell r ki := by
    rw [getCell_clearRow0, h1]
    rfl
  have e2 : getCell (clearRow S 0 r) j = getCell r j := by
    rw [getCell_clearRow0, h2]
    rfl
  show (if (!isNA (getCell (clearRow S 0 r) ki) && !isNA (getCell (clearRow S 0 r) j)) = true
        then some (getCell (clearRow S 0 r) ki, getCell (clearRow S 0 r) j) else none) =
       (if (!isNA (getCell r ki) && !isNA (getCell r j)) = true
        then some (getCell r ki, getCell r j) else none)
  rw [e1, e2]

theorem clearRow_congr (S1 S2 : List Nat)
    (h : ∀ i, S1.contains i = S2.contains i) :
    ∀ (r : List Cell) (b : Nat), clearRow S1 b r = clearRow S2 b r := by
  intro r
  induction r with
  | nil => intro b; rfl
  | cons c r ih => intro b; rw [clearRow, clearRow, h b, ih (b + 1)]

theorem clearAt_congr (S1 S2 : List Nat) (rows : List (List Cell))
    (h : ∀ i, S1.contains i = S2.contains i) :
    clearAt S1 rows = clearAt S2 rows := by
  rw [clearAt, clearAt]
  apply List.map_congr_left
  intro r _
  exact clearRow_congr S1 S2 h r 0

theorem clearRow_fresh (S : List Nat) (jnew : Nat) :
    ∀ (r : List Cell) (b : Nat), jnew < b →
      clearRow (jnew :: S) b r = clearRow S b r := by
  intro r
  induction r with
  | nil => intro b _; rfl
  | cons c r ih =>
      intro b hb
      rw [clearRow, clearRow]
      have hbb : (b == jnew) = false := beq_eq_false_iff_ne.mpr (by omega)
      have h1 : (jnew :: S).contains b = S.contains b := by
        rw [List.contains_cons, hbb, Bool.false_or]
      rw [h1, ih (b + 1) (by omega)]

theorem setClear_clearRow (S : List Nat) :
    ∀ (r : List Cell) (b j : Nat),
      (clearRow S b r).set j (clearCell (getCell (clearRow S b r) j)) =
        clearRow ((b + j) :: S) b r := by
  intro r
  induction r with
  | nil => intro b j; rfl
  | cons c r ih =>
      intro b j
      match j with
      | 0 =>
          rw [Nat.add_zero]
          simp only [clearRow]
          have hget : getCell ((if S.contains b then clearCell c else c) :: clearRow S (b + 1) r) 0 =
              (if S.contains b then clearCell c else c) := by
            simp [getCell, List.getD]
          rw [hget, List.set_cons_zero]
          have h1 : clearCell (if S.contains b then clearCell c else c) = clearCell c := by
            by_cases h : S.contains b = true
            · rw [if_pos h, clearCell_idem]
            · rw [if_neg h]
          have h2 : ((b :: S).contains b) = true := by
            rw [List.contains_cons, beq_self_eq_true, Bool.true_or]
          rw [h1, if_pos h2, clearRow_fresh S b r (b + 1) (by omega)]
      | j + 1 =>
          simp only [clearRow]
          have hget : getCell ((if S.contains b then clearCell c else c) :: clearRow S (b + 1) r) (j + 1) =
              getCell (clearRow S (b + 1) r) j := by
            simp [getCell, List.getD]
          rw [hget, List.set_cons_succ, ih (b + 1) j]
          have h2 : ((b + (j + 1) : Nat) :: S).contains b = S.contains b := by
            have hbb : (b == b + (j + 1)) = false := beq_eq_false_iff_ne.mpr (by omega)
            rw [List.contains_cons, hbb, Bool.false_or]
          rw [h2]
          have h3 : b + 1 + j = b + (j + 1) := by omega
          rw [h3]

theorem clearColRows_clearAt (S : List Nat) (rows : List (List Cell)) (j : Nat) :
    clearColRows (clearAt S rows) j = clearAt (j :: S) rows := by
  rw [clearColRows, setColMap, clearAt, clearAt, List.map_map]
  apply List.map_congr_left
  intro r _
  show (clearRow S 0 r).set j (clearCell (getCell (clearRow S 0 r) j)) = clearRow (j :: S) 0 r
  have h := setClear_clearRow S r 0 j
  rw [Nat.zero_add] at h
  exact h

theorem clearAt_nil (rows : List (List Cell)) : clearAt [] rows = rows := by
  rw [clearAt]
  have h : ∀ (r : List Cell) (b : Nat), clearRow [] b r = r := by
    intro r
    induction r with
    | nil => intro b; rfl
    | cons c r ih =>
        intro b
        rw [clearRow, ih (b + 1)]
        rfl
  calc rows.map (clearRow [] 0) = rows.map id := by
        apply List.map_congr_left
        intro r _
        exact h r 0
    _ = rows := List.map_id rows

theorem contains_append_nat (l1 l2 : List Nat) (a : Nat) :
    (l1 ++ l2).contains a = (l1.contains a || l2.contains a) := by
  induction l1 with
  | nil =>
      rw [List.nil_append]
      show l2.contains a = (false || l2.contains a)
      rw [Bool.false_or]
  | cons b l1 ih =>
      rw [List.cons_append, List.contains_cons, List.contains_cons, ih,
        Bool.or_assoc]

theorem xTrigger_clearAt (S : List Nat) (rows : List (List Cell)) (j : Nat)
    (h : S.contains j = false) :
    xTrigger (clearAt S rows) j = xTrigger rows j := by
  rw [xTrigger, xTrigger, colCells_clearAt S rows j h]

theorem xRecords_clearAt (key cname : String) (S : List Nat)
    (rows : List (List Cell)) (ki j : Nat)
    (h1 : S.contains ki = false) (h2 : S.contains j = false) :
    xRecords key cname (clearAt S rows) ki j = xRecords key cname rows ki j := by
  by_cases hc : cname = key
  · rw [xRecords, if_pos hc, xRecords, if_pos hc]
  · rw [xRecords, if_neg hc, xRecords, if_neg hc,
      xPairs_clearAt S rows ki j h1 h2]

theorem mem_enumFrom (l : List String) :
    ∀ (n : Nat) (jc : Nat × String), jc ∈ enumFrom n l →
      ∃ i, i < l.length ∧ jc.1 = n + i ∧ l.getD i "" = jc.2 := by
  induction l with
  | nil => intro n jc h; cases h
  | cons c cs ih =>
      intro n jc h
      rcases List.mem_cons.mp h with h1 | h1
      · subst h1
        exact ⟨0, Nat.succ_pos _, rfl, rfl⟩
      · obtain ⟨i, hi, he, hg⟩ := ih (n + 1) jc h1
        refine ⟨i + 1, Nat.succ_lt_succ hi, ?_, hg⟩
        rw [he]
        omega

theorem enumFrom_map_fst (l : List String) :
    ∀ n, (enumFrom n l).map Prod.fst = List.range' n l.length := by
  induction l with
  | nil => intro n; rfl
  | cons c cs ih =>
      intro n
      rw [enumFrom, List.map_cons, ih (n + 1), List.length_cons, List.range'_succ]

theorem idxOf?_getD :
    ∀ (cols : List String) (key : String) (ki : Nat),
      idxOf? key cols = some ki → cols.getD ki "" = key := by
  intro cols
  induction cols with
  | nil => intro key ki h; cases h
  | cons x xs ih =>
      intro key ki h
      rw [idxOf?] at h
      by_cases h2 : x = key
      · rw [if_pos h2] at h
        injection h with h3
        rw [← h3, h2]
        rfl
      · rw [if_neg h2] at h
        rcases h4 : idxOf? key xs with _ | k2
        · rw [h4] at h; cases h
        · rw [h4] at h
          injection h with h5
          rw [← h5]
          show xs.getD k2 "" = key
          exact ih key k2 h4

theorem xGo_nil (key : String) (ki? : Option Nat) (pre : String)
    (tabs : List (String × Table)) (rows : List (List Cell)) :
    xGo key ki? pre [] tabs rows = .ok (tabs, rows) := rfl

theorem xGo_cons_some (key : String) (ki : Nat) (pre : String) (j : Nat)
    (cname : String) (L : List (Nat × String)) (tabs : List (String × Table))
    (rows : List (List Cell)) :
    xGo key (some ki) pre ((j, cname) :: L) tabs rows =
      if xTrigger rows j then
        (if (xRecords key cname rows ki j).isEmpty then
          xGo key (some ki) pre L tabs rows
        else
          xGo key (some ki) pre L
            (tabs ++ [(pre ++ "_" ++ cname ++ "_table",
                       ⟨[key, cname ++ "_item", "index"],
                        xRecords key cname rows ki j⟩)])
            (clearColRows rows j))
      else xGo key (some ki) pre L tabs rows := rfl

theorem xGo_cons_none (key : String) (pre : String) (j : Nat) (cname : String)
    (L : List (Nat × String)) (tabs : List (String × Table))
    (rows : List (List Cell)) :
    xGo key none pre ((j, cname) :: L) tabs rows =
      if xTrigger rows j then .error (keyErrMsg key)
      else xGo key none pre L tabs rows := rfl

theorem xGo_none_ok (key pre : String) :
    ∀ (L : List (Nat × String)) (tabs tabs' : List (String × Table))
      (rows rows' : List (List Cell)),
      xGo key none pre L tabs rows = .ok (tabs', rows') →
      tabs' = tabs ∧ rows' = rows := by
  intro L
  induction L with
  | nil =>
      intro tabs tabs' rows rows' h
      rw [xGo_nil] at h
      injection h with h2
      exact ⟨(congrArg Prod.fst h2).symm, (congrArg Prod.snd h2).symm⟩
  | cons jc L ih =>
      intro tabs tabs' rows rows' h
      obtain ⟨j, cname⟩ := jc
      rw [xGo_cons_none] at h
      by_cases htrig : xTrigger rows j = true
      · rw [if_pos htrig] at h; cases h
      · rw [if_neg htrig] at h
        exact ih tabs tabs' rows rows' h

theorem xGo_spec (t : Table) (pre key : String) (ki : Nat)
    (hkik : t.cols.getD ki "" = key) :
    ∀ (L : List (Nat × String)) (S : List Nat) (tabs : List (String × Table)),
      (∀ jc ∈ L, t.cols.getD jc.1 "" = jc.2) →
      (∀ jc ∈ L, S.contains jc.1 = false) →
      (S.contains ki = false) →
      ((L.map Prod.fst).Nodup) →
      xGo key (some ki) pre L tabs (clearAt S t.rows) =
        .ok (tabs ++ L.filterMap (xTab t pre key ki),
             clearAt (S ++ L.filterMap
               (fun jc => if xCond t key ki jc then some jc.1 else none)) t.rows) := by
  intro L
  induction L with
  | nil =>
      intro S tabs _ _ _ _
      rw [xGo_nil, List.filterMap_nil, List.append_nil, List.filterMap_nil,
        List.append_nil]
  | cons jc L ih =>
      intro S tabs hcons hS hki hnd
      obtain ⟨j, cname⟩ := jc
      have hj : t.cols.getD j "" = cname := hcons (j, cname) (List.mem_cons_self _ _)
      have hjS : S.contains j = false := hS (j, cname) (List.mem_cons_self _ _)
      have hconsT : ∀ jc ∈ L, t.cols.getD jc.1 "" = jc.2 :=
        fun jc h => hcons jc (List.mem_cons_of_mem _ h)
      have hST : ∀ jc ∈ L, S.contains jc.1 = false :=
        fun jc h => hS jc (List.mem_cons_of_mem _ h)
      have hndT : (L.map Prod.fst).Nodup := by
        rw [List.map_cons, List.nodup_cons] at hnd
        exact hnd.2
      have hjnot : j ∉ L.map Prod.fst := by
        rw [List.map_cons, List.nodup_cons] at hnd
        exact hnd.1
      rw [xGo_cons_some, xTrigger_clearAt S t.rows j hjS]
      by_cases htrig : xTrigger t.rows j = true
      · rw [if_pos htrig, xRecords_clearAt key cname S t.rows ki j hki hjS]
        by_cases hemp : (xRecords key cname t.rows ki j).isEmpty = true
        · rw [if_pos hemp, ih S tabs hconsT hST hki hndT]
          have hcond : xCond t key ki (j, cname) = false := by
            rw [xCond]
            show (xTrigger t.rows j && !(xRecords key cname t.rows ki j).isEmpty) = false
            rw [hemp, htrig]
            rfl
          have h1 : xTab t pre key ki (j, cname) = none := by
            rw [xTab, hcond]
            rfl
          have hfmA : List.filterMap (xTab t pre key ki) ((j, cname) :: L) =
              List.filterMap (xTab t pre key ki) L := by
            rw [List.filterMap_cons, h1]
          have hfmB : List.filterMap
              (fun jc => if xCond t key ki jc then some jc.1 else none)
              ((j, cname) :: L) =
              List.filterMap
                (fun jc => if xCond t key ki jc then some jc.1 else none) L := by
            simp only [List.filterMap_cons]
            rw [hcond]
            rfl
          rw [hfmA, hfmB]
        · have hcnek : cname ≠ key := by
            intro hc
            rw [xRecords, if_pos hc] at hemp
            exact hemp rfl
          have hjki : j ≠ ki := fun hc => hcnek (by rw [← hj, hc, hkik])
          have hempF : (xRecords key cname t.rows ki j).isEmpty = false :=
            Bool.not_eq_true _ ▸ (Bool.eq_false_iff.mpr hemp)
          rw [if_neg hemp, clearColRows_clearAt]
          have hST2 : ∀ jc ∈ L, (j :: S).contains jc.1 = false := by
            intro jc h
            have hne : (jc.1 == j) = false := by
              apply beq_eq_false_iff_ne.mpr
              intro hc
              exact hjnot (hc ▸ List.mem_map.mpr ⟨jc, h, rfl⟩)
            rw [List.contains_cons, hne, Bool.false_or]
            exact hST jc h
          have hki2 : (j :: S).contains ki = false := by
            have hne : (ki == j) = false := beq_eq_false_iff_ne.mpr (Ne.symm hjki)
            rw [List.contains_cons, hne, Bool.false_or]
            exact hki
          rw [ih (j :: S) _ hconsT hST2 hki2 hndT]
          have hcond : xCond t key ki (j, cname) = true := by
            rw [xCond]
            show (xTrigger t.rows j && !(xRecords key cname t.rows ki j).isEmpty) = true
            rw [hempF, htrig]
            rfl
          have h1 : xTab t pre key ki (j, cname) =
              some (pre ++ "_" ++ cname ++ "_table",
                ⟨[key, cname ++ "_item", "index"], xRecords key cname t.rows ki j⟩) := by
            rw [xTab, hcond]
            rfl
          have hfmA : List.filterMap (xTab t pre key ki) ((j, cname) :: L) =
              (pre ++ "_" ++ cname ++ "_table",
                (⟨[key, cname ++ "_item", "index"],
                  xRecords key cname t.rows ki j⟩ : Table)) ::
                List.filterMap (xTab t pre key ki) L := by
            rw [List.filterMap_cons, h1]
          have hfmB : List.filterMap
              (fun jc => if xCond t key ki jc then some jc.1 else none)
              ((j, cname) :: L) =
              j :: List.filterMap
                (fun jc => if xCond t key ki jc then some jc.1 else none) L := by
            simp only [List.filterMap_cons]
            rw [hcond]
            rfl
          rw [hfmA, hfmB]
          have hrows : clearAt ((j :: S) ++ L.filterMap
              (fun jc => if xCond t key ki jc then some jc.1 else none)) t.rows =
              clearAt (S ++ j :: L.filterMap
                (fun jc => if xCond t key ki jc then some jc.1 else none)) t.rows := by
            apply clearAt_congr
            intro i
            rw [contains_append_nat, contains_append_nat, List.contains_cons,
              List.contains_cons, Bool.or_assoc, Bool.or_left_comm]
          rw [hrows]
          simp [List.append_assoc]
      · rw [if_neg htrig, ih S tabs hconsT hST hki hndT]
        have hcond : xCond t key ki (j, cname) = false := by
          rw [xCond]
          show (xTrigger t.rows j && !(xRecords key cname t.rows ki j).isEmpty) = false
          rw [Bool.eq_false_iff.mpr htrig]
          rfl
        have h1 : xTab t pre key ki (j, cname) = none := by
          rw [xTab, hcond]
          rfl
        have hfmA : List.filterMap (xTab t pre key ki) ((j, cname) :: L) =
            List.filterMap (xTab t pre key ki) L := by
          rw [List.filterMap_cons, h1]
        have hfmB : List.filterMap
            (fun jc => if xCond t key ki jc then some jc.1 else none)
            ((j, cname) :: L) =
            List.filterMap
              (fun jc => if xCond t key ki jc then some jc.1 else none) L := by
          simp only [List.filterMap_cons]
          rw [hcond]
          rfl
        rw [hfmA, hfmB]

/-- The extraction loop is equivalent to independent per-column
extraction from the original rows: link tables come from `xTab`, and the
main rows get exactly the triggered, record-producing columns cleared. -/
theorem extract_spec (t : Table) (pre key : String) (ki : Nat)
    (hki : idxOf? key t.cols = some ki) :
    extract_one_to_many_tables t pre key =
      .ok ((enumCols t.cols).filterMap (xTab t pre key ki),
           ⟨t.cols, clearAt (xClears t key ki) t.rows⟩) := by
  rw [extract_one_to_many_tables, hki]
  have hkik : t.cols.getD ki "" = key := idxOf?_getD t.cols key ki hki
  have hcons : ∀ jc ∈ enumCols t.cols, t.cols.getD jc.1 "" = jc.2 := by
    intro jc h
    obtain ⟨i, _, he, hg⟩ := mem_enumFrom t.cols 0 jc h
    rw [he, Nat.zero_add]
    exact hg
  have hnd : ((enumCols t.cols).map Prod.fst).Nodup := by
    rw [enumCols, enumFrom_map_fst]
    exact List.nodup_range' _ _ 1 Nat.one_pos
  have h := xGo_spec t pre key ki hkik (enumCols t.cols) [] []
    hcons (fun jc _ => rfl) rfl hnd
  rw [clearAt_nil] at h
  rw [h]
  rfl

theorem band_parts {a b : Bool} (h : (a && b) = true) : a = true ∧ b = true := by
  cases a
  · exact Bool.noConfusion h
  · cases b
    · exact Bool.noConfusion h
    · exact ⟨rfl, rfl⟩

theorem nat_mem_of_contains (l : List Nat) (a : Nat)
    (h : l.contains a = true) : a ∈ l := by
  induction l with
  | nil => exact Bool.noConfusion h
  | cons b l ih =>
      rw [List.contains_cons, Bool.or_eq_true] at h
      rcases h with h1 | h1
      · exact (eq_of_beq h1) ▸ List.mem_cons_self b l
      · exact List.mem_cons_of_mem b (ih h1)

theorem nat_contains_of_mem (l : List Nat) (a : Nat)
    (h : a ∈ l) : l.contains a = true := by
  induction l with
  | nil => cases h
  | cons b l ih =>
      rw [List.contains_cons, Bool.or_eq_true]
      rcases List.mem_cons.mp h with h1 | h1
      · exact Or.inl (beq_iff_eq.mpr h1)
      · exact Or.inr (ih h1)

theorem getD_map_keepnil (f : List Cell → List Cell) (hf : f [] = []) :
    ∀ (l : List (List Cell)) (i : Nat), (l.map f).getD i [] = f (l.getD i []) := by
  intro l
  induction l with
  | nil => intro i; rw [List.map_nil]; exact hf.symm
  | cons r l ih =>
      intro i
      match i with
      | 0 => rfl
      | i + 1 => exact ih i

theorem getD_mem_of_lt {α : Type} (l : List α) (n : Nat) (d : α)
    (h : n < l.length) : l.getD n d ∈ l := by
  induction l generalizing n with
  | nil => cases h
  | cons x xs ih =>
      match n with
      | 0 => exact List.mem_cons_self x xs
      | n + 1 => exact List.mem_cons_of_mem x (ih n (by simpa using h))

/-- Inversion of a successful extraction: either the key column exists
and the specification form describes the result, or no column was
triggered and the table is returned untouched with no link tables. -/
theorem extract_ok_cases (t : Table) (pre key : String)
    (tabs : List (String × Table)) (t' : Table)
    (h : extract_one_to_many_tables t pre key = .ok (tabs, t')) :
    (∃ ki, idxOf? key t.cols = some ki ∧
       tabs = (enumCols t.cols).filterMap (xTab t pre key ki) ∧
       t' = ⟨t.cols, clearAt (xClears t key ki) t.rows⟩) ∨
    (idxOf? key t.cols = none ∧ tabs = [] ∧ t' = ⟨t.cols, t.rows⟩) := by
  rcases hki : idxOf? key t.cols with _ | ki
  · right
    rw [extract_one_to_many_tables, hki] at h
    rcases hxg : xGo key none pre (enumCols t.cols) [] t.rows with e | st
    · rw [hxg] at h; cases h
    · rw [hxg] at h
      obtain ⟨tabs0, rows0⟩ := st
      injection h with h2
      obtain ⟨he1, he2⟩ := xGo_none_ok key pre (enumCols t.cols) [] tabs0 t.rows rows0 hxg
      have h3 : tabs0 = tabs := congrArg Prod.fst h2
      have h4 : ({ cols := t.cols, rows := rows0 } : Table) = t' := congrArg Prod.snd h2
      refine ⟨rfl, by rw [← h3, he1], by rw [← h4, he2]⟩
  · left
    rw [extract_spec t pre key ki hki] at h
    injection h with h2
    exact ⟨ki, rfl, (congrArg Prod.fst h2).symm, (congrArg Prod.snd h2).symm⟩

theorem rowRecords_head (kv v : Cell) (r : List Cell)
    (h : r ∈ rowRecords kv v) : getCell r 0 = kv := by
  match v with
  | .str s =>
      rw [rowRecords] at h
      obtain ⟨p, _, hp⟩ := List.mem_filterMap.mp h
      by_cases he : p.2 = ""
      · rw [if_pos he] at hp; cases hp
      · rw [if_neg he] at hp
        injection hp with h2
        rw [← h2]
        rfl
  | .int n => cases h
  | .bool b => cases h
  | .dt n => cases h
  | .nan => cases h
  | .noneV => cases h

theorem xPairs_sound (rows : List (List Cell)) (ki j : Nat) (p : Cell × Cell)
    (h : p ∈ xPairs rows ki j) :
    ∃ row ∈ rows, isNA (getCell row ki) = false ∧
      p.1 = getCell row ki ∧ p.2 = getCell row j := by
  obtain ⟨row, hrow, hp⟩ := List.mem_filterMap.mp h
  by_cases hc : (!isNA (getCell row ki) && !isNA (getCell row j)) = true
  · rw [if_pos hc] at hp
    injection hp with h2
    have hna : isNA (getCell row ki) = false := by
      obtain ⟨h3, _⟩ := band_parts hc
      cases hb : isNA (getCell row ki)
      · rfl
      · rw [hb] at h3; exact Bool.noConfusion h3
    exact ⟨row, hrow, hna, (congrArg Prod.fst h2).symm, (congrArg Prod.snd h2).symm⟩
  · rw [if_neg hc] at hp
    cases hp

/-- C8: link tables only arise when the key column exists, and every link
row's foreign-key field (the first cell) equals the non-NA identifier
value of the main-table row it was extracted from.  The key column itself
is never cleared by extraction, so this value is the same in the input
and output main table. -/
theorem C8_fk_invariant (t : Table) (pre key : String)
    (tabs : List (String × Table)) (t' : Table)
    (h : extract_one_to_many_tables t pre key = .ok (tabs, t')) :
    (tabs ≠ [] → ∃ ki, idxOf? key t.cols = some ki) ∧
    (∀ nt ∈ tabs, ∃ ki, idxOf? key t.cols = some ki ∧
      ∀ r ∈ nt.2.rows, ∃ row ∈ t.rows,
        isNA (getCell row ki) = false ∧ getCell r 0 = getCell row ki) := by
  rcases extract_ok_cases t pre key tabs t' h with
    ⟨ki, hki, htabs, _⟩ | ⟨_, htabs, _⟩
  · refine ⟨fun _ => ⟨ki, hki⟩, ?_⟩
    intro nt hnt
    refine ⟨ki, hki, ?_⟩
    intro r hr
    rw [htabs] at hnt
    obtain ⟨jc, _, hjc⟩ := List.mem_filterMap.mp hnt
    by_cases hc : xCond t key ki jc = true
    · rw [xTab, if_pos hc] at hjc
      injection hjc with h2
      have hrows : nt.2.rows = xRecords key jc.2 t.rows ki jc.1 := by
        rw [← h2]
      rw [hrows] at hr
      by_cases hk : jc.2 = key
      · rw [xRecords, if_pos hk] at hr
        cases hr
      · rw [xRecords, if_neg hk] at hr
        obtain ⟨p, hp, hrp⟩ := List.mem_flatMap.mp hr
        obtain ⟨row, hrow, hna, hfst, _⟩ := xPairs_sound t.rows ki jc.1 p hp
        refine ⟨row, hrow, hna, ?_⟩
        rw [rowRecords_head p.1 p.2 r hrp, hfst]
    · rw [xTab, if_neg hc] at hjc
      cases hjc
  · rw [htabs]
    refine ⟨fun hc => absurd rfl hc, ?_⟩
    intro nt hnt
    cases hnt

/-- C10: extraction keeps the column set, the number and order of rows,
and every cell is either unchanged or cleared; a column none of whose
values contains a comma is never triggered and keeps exactly its original
values. -/
theorem C10_frame (t : Table) (pre key : String)
    (tabs : List (String × Table)) (t' : Table)
    (h : extract_one_to_many_tables t pre key = .ok (tabs, t')) :
    t'.cols = t.cols ∧ t'.rows.length = t.rows.length ∧
    (∀ i j, getCell (t'.rows.getD i []) j = getCell (t.rows.getD i []) j ∨
      getCell (t'.rows.getD i []) j = clearCell (getCell (t.rows.getD i []) j)) ∧
    (∀ j, (∀ c ∈ colCells t.rows j, cellHasComma c = false) →
      colCells t'.rows j = colCells t.rows j) := by
  rcases extract_ok_cases t pre key tabs t' h with
    ⟨ki, _, _, ht'⟩ | ⟨_, _, ht'⟩
  · rw [ht']
    refine ⟨rfl, ?_, ?_, ?_⟩
    · show (List.map _ t.rows).length = t.rows.length
      rw [List.length_map]
    · intro i j
      show getCell ((t.rows.map (clearRow (xClears t key ki) 0)).getD i []) j = _ ∨
        getCell ((t.rows.map (clearRow (xClears t key ki) 0)).getD i []) j = _
      rw [getD_map_keepnil (clearRow (xClears t key ki) 0) rfl t.rows i,
        getCell_clearRow0]
      by_cases hc : (xClears t key ki).contains j = true
      · rw [if_pos hc]
        right
        rfl
      · rw [if_neg hc]
        left
        rfl
    · intro j hnoc
      have hjS : (xClears t key ki).contains j = false := by
        cases hc : (xClears t key ki).contains j
        · rfl
        · exfalso
          have hjmem := nat_mem_of_contains _ j hc
          obtain ⟨jc, _, hjc⟩ := List.mem_filterMap.mp hjmem
          by_cases hcond : xCond t key ki jc = true
          · rw [if_pos hcond] at hjc
            injection hjc with h2
            rw [xCond] at hcond
            have htrig : xTrigger t.rows jc.1 = true :=
              (band_parts hcond).1
            rw [xTrigger] at htrig
            have hany : (colCells t.rows jc.1).any cellHasComma = true :=
              (band_parts htrig).2
            obtain ⟨c, hcm, hcc⟩ := List.any_eq_true.mp hany
            rw [h2] at hcm
            rw [hnoc c hcm] at hcc
            exact Bool.noConfusion hcc
          · rw [if_neg hcond] at hjc
            cases hjc
      exact colCells_clearAt (xClears t key ki) t.rows j hjS
  · rw [ht']
    exact ⟨rfl, rfl, fun i j => Or.inl rfl, fun j _ => rfl⟩

theorem idxOf?_mem_enumFrom (c : String) :
    ∀ (l : List String) (n j : Nat), idxOf? c l = some j →
      (n + j, c) ∈ enumFrom n l := by
  intro l
  induction l with
  | nil => intro n j h; cases h
  | cons x xs ih =>
      intro n j h
      rw [idxOf?] at h
      by_cases h2 : x = c
      · rw [if_pos h2] at h
        injection h with h3
        rw [← h3, Nat.add_zero, h2]
        exact List.mem_cons_self _ _
      · rw [if_neg h2] at h
        rcases h4 : idxOf? c xs with _ | j2
        · rw [h4] at h; cases h
        · rw [h4] at h
          injection h with h5
          have h6 := ih (n + 1) j2 h4
          rw [← h5]
          have h7 : n + (j2 + 1) = (n + 1) + j2 := by omega
          rw [h7]
          exact List.mem_cons_of_mem _ h6

/-- C6: a row with identifier `X` and value `"a, b, c"` in column `c`
contributes exactly the three link rows `{X, "a", 0}`, `{X, "b", 1}`,
`{X, "c", 2}` to the link table of `c`, and that row's cell in column `c`
of the main table is cleared to the empty string. -/
theorem C6_link_rows (t : Table) (pre key cname : String) (ki cj i : Nat)
    (X : Cell)
    (hki : idxOf? key t.cols = some ki)
    (hcj : idxOf? cname t.cols = some cj)
    (hnek : cname ≠ key)
    (hi : i < t.rows.length)
    (hXna : isNA X = false)
    (hX : getCell (t.rows.getD i []) ki = X)
    (hv : getCell (t.rows.getD i []) cj = .str "a, b, c") :
    rowRecords X (.str "a, b, c") =
      [[X, .str "a", .int 0], [X, .str "b", .int 1], [X, .str "c", .int 2]] ∧
    ∃ tabs rows', extract_one_to_many_tables t pre key = .ok (tabs, ⟨t.cols, rows'⟩) ∧
      (∃ tbl, (pre ++ "_" ++ cname ++ "_table", tbl) ∈ tabs ∧
        tbl.cols = [key, cname ++ "_item", "index"] ∧
        tbl.rows = xRecords key cname t.rows ki cj ∧
        [X, .str "a", .int 0] ∈ tbl.rows ∧ [X, .str "b", .int 1] ∈ tbl.rows ∧
        [X, .str "c", .int 2] ∈ tbl.rows) ∧
      getCell (rows'.getD i []) cj = .str "" := by
  have hrr : rowRecords X (.str "a, b, c") =
      [[X, .str "a", .int 0], [X, .str "b", .int 1], [X, .str "c", .int 2]] := rfl
  have hrow_mem : t.rows.getD i [] ∈ t.rows := getD_mem_of_lt t.rows i [] hi
  have hcell_mem : Cell.str "a, b, c" ∈ colCells t.rows cj := by
    rw [← hv]
    exact List.mem_map.mpr ⟨t.rows.getD i [], hrow_mem, rfl⟩
  have hpair : (X, Cell.str "a, b, c") ∈ xPairs t.rows ki cj := by
    apply List.mem_filterMap.mpr
    refine ⟨t.rows.getD i [], hrow_mem, ?_⟩
    rw [hX, hv]
    show (if (!isNA X && !isNA (Cell.str "a, b, c")) = true
          then some (X, Cell.str "a, b, c") else none) =
      some (X, Cell.str "a, b, c")
    rw [hXna]
    rfl
  have hmemrec : ∀ r ∈ rowRecords X (.str "a, b, c"),
      r ∈ xRecords key cname t.rows ki cj := by
    intro r hr
    rw [xRecords, if_neg hnek]
    exact List.mem_flatMap.mpr ⟨(X, .str "a, b, c"), hpair, hr⟩
  have hma : [X, .str "a", .int 0] ∈ xRecords key cname t.rows ki cj := by
    apply hmemrec
    rw [hrr]
    exact List.mem_cons_self _ _
  have hmb : [X, .str "b", .int 1] ∈ xRecords key cname t.rows ki cj := by
    apply hmemrec
    rw [hrr]
    exact List.mem_cons_of_mem _ (List.mem_cons_self _ _)
  have hmc : [X, .str "c", .int 2] ∈ xRecords key cname t.rows ki cj := by
    apply hmemrec
    rw [hrr]
    exact List.mem_cons_of_mem _ (List.mem_cons_of_mem _ (List.mem_cons_self _ _))
  have hnonempty : (xRecords key cname t.rows ki cj).isEmpty = false := by
    rcases hrec : xRecords key cname t.rows ki cj with _ | ⟨r0, rs⟩
    · rw [hrec] at hma; cases hma
    · rfl
  have htrig : xTrigger t.rows cj = true := by
    rw [xTrigger]
    have h1 : colIsObject (colCells t.rows cj) = true := by
      rw [colIsObject]
      exact List.any_eq_true.mpr ⟨.str "a, b, c", hcell_mem, rfl⟩
    have h2 : (colCells t.rows cj).any cellHasComma = true := by
      apply List.any_eq_true.mpr
      refine ⟨.str "a, b, c", hcell_mem, ?_⟩
      decide
    rw [h1, h2]
    rfl
  have hcond : xCond t key ki (cj, cname) = true := by
    rw [xCond]
    show (xTrigger t.rows cj && !(xRecords key cname t.rows ki cj).isEmpty) = true
    rw [htrig, hnonempty]
    rfl
  have henum : (cj, cname) ∈ enumCols t.cols := by
    have h := idxOf?_mem_enumFrom cname t.cols 0 cj hcj
    rw [Nat.zero_add] at h
    exact h
  refine ⟨hrr, (enumCols t.cols).filterMap (xTab t pre key ki),
    clearAt (xClears t key ki) t.rows, extract_spec t pre key ki hki, ?_, ?_⟩
  · refine ⟨⟨[key, cname ++ "_item", "index"], xRecords key cname t.rows ki cj⟩,
      ?_, rfl, rfl, hma, hmb, hmc⟩
    apply List.mem_filterMap.mpr
    refine ⟨(cj, cname), henum, ?_⟩
    rw [xTab, if_pos hcond]
  · have hcjS : (xClears t key ki).contains cj = true := by
      apply nat_contains_of_mem
      apply List.mem_filterMap.mpr
      refine ⟨(cj, cname), henum, ?_⟩
      rw [hcond]
      rfl
    rw [clearAt, getD_map_keepnil (clearRow (xClears t key ki) 0) rfl t.rows i,
      getCell_clearRow0, if_pos hcjS, hv]
    rfl

/-- Witness for C6: a one-row table with key column `u_id` and a
three-item `tags` column. -/
theorem C6_witness :
    idxOf? "u_id" ["u_id", "tags"] = some 0 ∧
    (rowRecords (.str "k1") (.str "a, b, c") =
      [[.str "k1", .str "a", .int 0], [.str "k1", .str "b", .int 1],
       [.str "k1", .str "c", .int 2]] ∧
    ∃ tabs rows',
      extract_one_to_many_tables ⟨["u_id", "tags"], [[.str "k1", .str "a, b, c"]]⟩
        "p" "u_id" = .ok (tabs, ⟨["u_id", "tags"], rows'⟩) ∧
      (∃ tbl, ("p_tags_table", tbl) ∈ tabs ∧
        tbl.cols = ["u_id", "tags_item", "index"] ∧
        tbl.rows = xRecords "u_id" "tags"
          [[.str "k1", .str "a, b, c"]] 0 1 ∧
        [Cell.str "k1", .str "a", .int 0] ∈ tbl.rows ∧
        [Cell.str "k1", .str "b", .int 1] ∈ tbl.rows ∧
        [Cell.str "k1", .str "c", .int 2] ∈ tbl.rows) ∧
      getCell (rows'.getD 0 []) 1 = .str "") :=
  ⟨by decide,
   C6_link_rows ⟨["u_id", "tags"], [[.str "k1", .str "a, b, c"]]⟩ "p" "u_id"
     "tags" 0 1 0 (.str "k1") (by decide) (by decide) (by decide) (by decide)
     (by decide) (by decide) (by decide)⟩

/-- Witness for C8: extraction of a one-row table keyed on `u_id`. -/
theorem C8_witness :
    extract_one_to_many_tables ⟨["u_id", "tags"], [[.str "k9", .str "x, y"]]⟩
        "q" "u_id" =
      .ok ([("q_tags_table",
             ⟨["u_id", "tags_item", "index"],
              [[.str "k9", .str "x", .int 0], [.str "k9", .str "y", .int 1]]⟩)],
           ⟨["u_id", "tags"], [[.str "k9", .str ""]]⟩) ∧
    ((([("q_tags_table",
         (⟨["u_id", "tags_item", "index"],
          [[.str "k9", .str "x", .int 0],
           [.str "k9", .str "y", .int 1]]⟩ : Table))] : List (String × Table)) ≠ []) →
      ∃ ki, idxOf? "u_id" ["u_id", "tags"] = some ki) :=
  ⟨by decide,
   (C8_fk_invariant ⟨["u_id", "tags"], [[.str "k9", .str "x, y"]]⟩ "q" "u_id"
     [("q_tags_table",
       ⟨["u_id", "tags_item", "index"],
        [[.str "k9", .str "x", .int 0], [.str "k9", .str "y", .int 1]]⟩)]
     ⟨["u_id", "tags"], [[.str "k9", .str ""]]⟩ (by decide)).1⟩

/-- Witness for C10: the comma-free column `name` survives extraction
unchanged while `tags` is cleared. -/
theorem C10_witness :
    extract_one_to_many_tables
        ⟨["u_id", "name", "tags"], [[.str "k2", .str "ann", .str "u, v"]]⟩
        "w" "u_id" =
      .ok ([("w_tags_table",
             ⟨["u_id", "tags_item", "index"],
              [[.str "k2", .str "u", .int 0], [.str "k2", .str "v", .int 1]]⟩)],
           ⟨["u_id", "name", "tags"], [[.str "k2", .str "ann", .str ""]]⟩) ∧
    (⟨["u_id", "name", "tags"], [[.str "k2", .str "ann", .str ""]]⟩ : Table).cols =
      (⟨["u_id", "name", "tags"], [[.str "k2", .str "ann", .str "u, v"]]⟩ : Table).cols :=
  ⟨by decide,
   (C10_frame ⟨["u_id", "name", "tags"], [[.str "k2", .str "ann", .str "u, v"]]⟩
     "w" "u_id"
     [("w_tags_table",
       ⟨["u_id", "tags_item", "index"],
        [[.str "k2", .str "u", .int 0], [.str "k2", .str "v", .int 1]]⟩)]
     ⟨["u_id", "name", "tags"], [[.str "k2", .str "ann", .str ""]]⟩ (by decide)).1⟩

/-! ### C9 (amended): agreement of the two cleaners on already-clean
string tables -/

theorem pdDropDupAux_subset :
    ∀ (l seen : List (List Cell)) (x : List Cell),
      x ∈ pdDropDupAux seen l → x ∈ l := by
  intro l
  induction l with
  | nil => intro seen x h; cases h
  | cons r rest ih =>
      intro seen x h
      rw [pdDropDupAux] at h
      by_cases hc : seen.contains r = true
      · rw [if_pos hc] at h
        exact List.mem_cons_of_mem r (ih seen x h)
      · rw [if_neg hc] at h
        rcases List.mem_cons.mp h with h1 | h1
        · exact h1 ▸ List.mem_cons_self r rest
        · exact List.mem_cons_of_mem r (ih (seen ++ [r]) x h1)

theorem keepIdx_lt (cols : List String) (rows : List (List Cell)) (j : Nat)
    (h : j ∈ keepIdx cols rows) : j < cols.length := by
  rw [keepIdx] at h
  exact List.mem_range.mp (List.mem_filter.mp h).1

theorem dropAllNaCols_fst_subset (cols : List String) (rows : List (List Cell)) :
    ∀ c ∈ (dropAllNaCols cols rows).1, c ∈ cols := by
  intro c hc
  obtain ⟨j, hj, he⟩ := List.mem_map.mp hc
  rw [← he]
  exact getD_mem_of_lt cols j "" (keepIdx_lt cols rows j hj)

/-- Every cell of the fillna'd, column-filtered, deduplicated table is a
whitespace-trimmed string, given that the original table's cells are
trimmed strings or missing. -/
theorem cleaned_cells_strfixed (t : Table)
    (hcells : ∀ r ∈ t.rows, ∀ c ∈ r,
      (∃ s, c = .str s ∧ pyStrip s = s) ∨ isNA c = true) :
    ∀ r ∈ (cleanStep0 t).rows, ∀ c ∈ r, ∃ s, c = .str s ∧ pyStrip s = s := by
  intro r hr c hc
  obtain ⟨r2, hr2, he2⟩ := List.mem_map.mp hr
  rw [← he2] at hc
  obtain ⟨c2, hc2, he3⟩ := List.mem_map.mp hc
  have hr2' : r2 ∈ (pdDropDuplicates t.rows).map
      (fun row => (keepIdx t.cols (pdDropDuplicates t.rows)).map
        (fun j => getCell row j)) := hr2
  obtain ⟨row, hrow, he4⟩ := List.mem_map.mp hr2'
  have hrow_orig : row ∈ t.rows := pdDropDupAux_subset t.rows [] row hrow
  rw [← he4] at hc2
  obtain ⟨jx, _, he5⟩ := List.mem_map.mp hc2
  have hcell : (∃ s, c2 = .str s ∧ pyStrip s = s) ∨ isNA c2 = true := by
    rw [← he5]
    by_cases hlt : jx < row.length
    · exact hcells row hrow_orig (getCell row jx) (getD_mem_of_lt row jx .nan hlt)
    · have hnan : getCell row jx = Cell.nan := by
        show row.getD jx Cell.nan = Cell.nan
        exact List.getD_eq_default _ _ (by omega)
      rw [hnan]
      exact Or.inr rfl
  rcases hcell with ⟨s, hs, hfix⟩ | hna
  · refine ⟨s, ?_, hfix⟩
    rw [← he3, hs]
    rfl
  · refine ⟨"", ?_, rfl⟩
    rw [← he3, fillnaCell, hna]
    rfl

theorem rowApplyFlags_fix (f : Cell → Cell) :
    ∀ (r : List Cell) (flags : List Bool), (∀ c ∈ r, f c = c) →
      rowApplyFlags f flags r = r := by
  intro r
  induction r with
  | nil => intro flags _; cases flags <;> rfl
  | cons c r ih =>
      intro flags h
      cases flags with
      | nil => rfl
      | cons fl flags =>
          rw [rowApplyFlags, ih flags (fun c' hc' => h c' (List.mem_cons_of_mem c hc'))]
          cases fl
          · rfl
          · rw [if_pos rfl, h c (List.mem_cons_self c r)]

theorem filter_nil_of_false {α : Type} (p : α → Bool) :
    ∀ l : List α, (∀ a ∈ l, p a = false) → l.filter p = [] := by
  intro l
  induction l with
  | nil => intro _; rfl
  | cons x l ih =>
      intro h
      rw [List.filter_cons, h x (List.mem_cons_self x l)]
      show l.filter p = []
      exact ih (fun a ha => h a (List.mem_cons_of_mem x ha))

theorem idxOf?_none_of_not_mem (c : String) :
    ∀ l : List String, c ∉ l → idxOf? c l = none := by
  intro l
  induction l with
  | nil => intro _; rfl
  | cons x xs ih =>
      intro h
      have hx : x ≠ c := fun hc => h (hc ▸ List.mem_cons_self x xs)
      rw [idxOf?, if_neg hx, ih (fun hc => h (List.mem_cons_of_mem x hc))]
      rfl

theorem mediaStep_none (cols : List String) (rows : List (List Cell))
    (h : idxOf? "media_type" cols = none) : mediaStep cols rows = rows := by
  rw [mediaStep, h]

/-- Fixed-point relation between the two column-name cleanups. -/
theorem pdColName_eq_lower_pdColName11 (c : String) :
    pdColName c = lowerStr (pdColName11 c) := rfl

/-- C9 (amended): the two `clean_and_standardize` implementations agree
on tables that are already in the normal form the extra steps of
`preprocess.py` would establish: column names fixed by the
`preprocess11.py` cleanup and by lower-casing, containing no date or
metric keyword and different from `media_type`, and every cell a
whitespace-trimmed string or missing.  In general the implementations
differ (see the counterexample): `preprocess.py` additionally
lower-cases names, coerces metric columns, remaps `media_type` and
trims strings. -/
theorem C9_amended (t : Table)
    (hnames : ∀ c ∈ t.cols, pdColName11 c = c ∧ lowerStr c = c ∧
      containsAny c dateKeywords = false ∧ containsAny c metricKeywords = false ∧
      c ≠ "media_type")
    (hcells : ∀ r ∈ t.rows, ∀ c ∈ r,
      (∃ s, c = .str s ∧ pyStrip s = s) ∨ isNA c = true) :
    clean_and_standardize t = clean_and_standardize11 t := by
  have hsub : ∀ c ∈ (cleanStep0 t).cols, c ∈ t.cols :=
    dropAllNaCols_fst_subset t.cols (pdDropDuplicates t.rows)
  have hnames2 : ∀ c ∈ (cleanStep0 t).cols,
      pdColName11 c = c ∧ lowerStr c = c ∧
      containsAny c dateKeywords = false ∧ containsAny c metricKeywords = false ∧
      c ≠ "media_type" :=
    fun c hc => hnames c (hsub c hc)
  have hcells3 := cleaned_cells_strfixed t hcells
  have hre : renameStep (cleanStep0 t) = cleanStep0 t := by
    rw [renameStep]
    have : (cleanStep0 t).cols.map pdColName = (cleanStep0 t).cols := by
      calc (cleanStep0 t).cols.map pdColName = (cleanStep0 t).cols.map id := by
            apply List.map_congr_left
            intro c hc
            obtain ⟨h1, h2, _, _, _⟩ := hnames2 c hc
            rw [pdColName_eq_lower_pdColName11, h1, h2]
            rfl
        _ = _ := List.map_id _
    rw [this]
  have hem : emojiStep (cleanStep0 t) = cleanStep0 t := rfl
  have hdi : dateIdxL (cleanStep0 t).cols = [] := by
    apply filter_nil_of_false
    intro j hj
    exact (hnames2 _ (getD_mem_of_lt _ j "" (List.mem_range.mp hj))).2.2.1
  have hdp : dateParseStep (cleanStep0 t) = cleanStep0 t := by
    rw [dateParseStep, hdi, List.foldl_nil]
  have hdn : dateNamesL (cleanStep0 t).cols = [] := by
    apply filter_nil_of_false
    intro c hc
    exact (hnames2 c hc).2.2.1
  have hdf : dateFeatStep (cleanStep0 t) = cleanStep0 t := by
    show (⟨((dateNamesL (cleanStep0 t).cols).foldl addDateFeatures
        ((cleanStep0 t).cols, (cleanStep0 t).rows)).1,
      ((dateNamesL (cleanStep0 t).cols).foldl addDateFeatures
        ((cleanStep0 t).cols, (cleanStep0 t).rows)).2⟩ : Table) = cleanStep0 t
    rw [hdn, List.foldl_nil]
  have hmi : metricIdxL (cleanStep0 t).cols = [] := by
    apply filter_nil_of_false
    intro j hj
    exact (hnames2 _ (getD_mem_of_lt _ j "" (List.mem_range.mp hj))).2.2.2.1
  have hms : metricStep (cleanStep0 t) = cleanStep0 t := by
    rw [metricStep, hmi, List.foldl_nil]
  have hmt : mediaStepT (cleanStep0 t) = cleanStep0 t := by
    rw [mediaStepT, mediaStep_none]
    apply idxOf?_none_of_not_mem
    intro hmem
    exact (hnames2 _ hmem).2.2.2.2 rfl
  have hst : stripStep (cleanStep0 t) = cleanStep0 t := by
    rw [stripStep]
    have : (cleanStep0 t).rows.map (rowApplyFlags stripCell
        (objFlags (cleanStep0 t).cols (cleanStep0 t).rows)) = (cleanStep0 t).rows := by
      calc (cleanStep0 t).rows.map (rowApplyFlags stripCell _)
          = (cleanStep0 t).rows.map id := by
            apply List.map_congr_left
            intro r hr
            apply rowApplyFlags_fix
            intro c hc
            obtain ⟨s, hs, hfix⟩ := hcells3 r hr c hc
            rw [hs, stripCell]
            show Cell.str (pyStrip s) = Cell.str s
            rw [hfix]
        _ = _ := List.map_id _
    rw [this]
  have hdi11 : dateIdx11L (cleanStep0 t).cols = [] := by
    apply filter_nil_of_false
    intro j hj
    obtain ⟨_, h2, h3, _, _⟩ :=
      hnames2 _ (getD_mem_of_lt _ j "" (List.mem_range.mp hj))
    rw [h2]
    exact h3
  have hig : dateIgnoreStep (cleanStep0 t) = cleanStep0 t := by
    rw [dateIgnoreStep, hdi11, List.foldl_nil]
  have hr11 : rename11Step (cleanStep0 t) = cleanStep0 t := by
    rw [rename11Step]
    have : (cleanStep0 t).cols.map pdColName11 = (cleanStep0 t).cols := by
      calc (cleanStep0 t).cols.map pdColName11 = (cleanStep0 t).cols.map id := by
            apply List.map_congr_left
            intro c hc
            exact (hnames2 c hc).1
        _ = _ := List.map_id _
    rw [this]
  rw [clean_and_standardize, clean_and_standardize11, hre, hem, hdp, hdf, hms,
    hmt, hst, hig, hr11]

/-- Witness for C9 (amended): a trimmed one-column string table is cleaned
identically by both implementations. -/
theorem C9_amended_witness :
    pdColName11 "name" = "name" ∧
    clean_and_standardize ⟨["name"], [[.str "anna"]]⟩ =
      clean_and_standardize11 ⟨["name"], [[.str "anna"]]⟩ :=
  ⟨by decide,
   C9_amended ⟨["name"], [[.str "anna"]]⟩
     (by
       intro c hc
       rcases List.mem_singleton.mp hc with h
       rw [h]
       refine ⟨by decide, by decide, by decide, by decide, by decide⟩)
     (by
       intro r hr c hc
       rcases List.mem_singleton.mp hr with h
       rw [h] at hc
       rcases List.mem_singleton.mp hc with h2
       rw [h2]
       exact Or.inl ⟨"anna", rfl, by decide⟩)⟩

end IGPre
